import Mathlib

/-!
# TradeLogVisualizer — verification of the spec against the source

Shallow embedding of the algorithmic core of the repository:

* `src/src/utils/tradeAggregator.ts` — the FIFO lot-matching engine
  (`aggregateTrades`, `groupBySymbol`, `matchBuysAndSells`,
  `createAggregatedTrade`, `calculateHoldingDays`);
* the SBI CSV parser (`detectCountry`, `parseSBICSV`);
* `src/src/services/stockDataService.ts` — the OHLCV bar resampler
  (`resampleData`, `resampleToWeekly`, `resampleToMonthly`).

Modelling conventions:

* JavaScript `number` is modelled by `ℚ`.  A JavaScript expression whose
  value can be non-finite (`NaN` / `±Infinity`, produced only by the two
  divisions in `createAggregatedTrade`) is modelled by `Option ℚ`, with
  `none` standing for the non-finite result, so that "division by zero
  yields a non-finite number" is visible in the model (Lean's `q / 0 = 0`
  convention would otherwise silently hide it).
* A `Trade.date` string is represented by the integer
  `new Date(s).getTime()` (milliseconds since the epoch), because the
  aggregator only ever uses dates through `getTime()` comparisons and
  millisecond differences.
* JavaScript object mutation: `matchBuysAndSells` executes
  `buy.quantity -= remainingSellQuantity` on an object that is aliased by
  the caller's input array.  The embedding makes the heap explicit: each
  trade is tagged with its position in the input list, in-place quantity
  writes are recorded in a write log, and `aggregateTrades` returns both
  the produced list and the post-call state of its input list.
* `Array.prototype.sort` (ES2019: stable, and the comparators used are
  consistent total preorders) is modelled by `List.insertionSort`, which
  computes exactly the stable sorted permutation.
* `createdAt: new Date()` (a wall-clock timestamp, never read by any of
  the verified code) is omitted from the model of `AggregatedTrade`.
-/

namespace TradeLog

inductive Side where
  | BUY : Side
  | SELL : Side
deriving DecidableEq, Repr

inductive CountryCode where
  | JP : CountryCode
  | US : CountryCode
deriving DecidableEq, Repr

/-- `Trade` from `src/db/database.ts` (the aggregator's input record).
`date` is the epoch-millisecond value of the date string (see header),
`createdAt` is omitted (never read). -/
structure Trade where
  id : Option Nat
  date : Int
  symbol : String
  name : String
  side : Side
  quantity : ℚ
  price : ℚ
  country : CountryCode
deriving DecidableEq, Repr

/-- `AggregatedTrade` from `src/db/database.ts` (output record; `id` is
assigned by the store and `createdAt` is a wall-clock timestamp, both
omitted).  `avgEntryPrice` and `profitLossPercent` are `Option ℚ`:
`none` models the non-finite result of the JavaScript division when the
respective divisor is `0`. -/
structure AggregatedTrade where
  symbol : String
  name : String
  country : CountryCode
  entryDate : Int
  avgEntryPrice : Option ℚ
  totalQuantity : ℚ
  totalEntryCost : ℚ
  exitDate : Int
  avgExitPrice : ℚ
  totalExitRevenue : ℚ
  profitLoss : ℚ
  profitLossPercent : Option ℚ
  holdingDays : Nat
  entryTradeIds : List Nat
  exitTradeIds : List Nat
deriving DecidableEq, Repr

/-- `calculateHoldingDays` (tradeAggregator.ts:144-150):
`Math.ceil(|exit − entry| / 86400000)` on millisecond timestamps. -/
def calculateHoldingDays (entryDate exitDate : Int) : Nat :=
  ((exitDate - entryDate).natAbs + 86399999) / 86400000

/-- `createAggregatedTrade` (tradeAggregator.ts:98-139).  The source
reads `buys[0].date`; every call site guarantees `buys ≠ []`, the
`headD` default is never reached there. -/
def createAggregatedTrade (buys : List Trade) (sell : Trade) : AggregatedTrade :=
  let totalQuantity := buys.foldl (fun sum buy => sum + buy.quantity) 0
  let totalEntryCost := buys.foldl (fun sum buy => sum + buy.price * buy.quantity) 0
  let avgEntryPrice : Option ℚ :=
    if totalQuantity = 0 then none else some (totalEntryCost / totalQuantity)
  let totalExitRevenue := sell.price * totalQuantity
  let avgExitPrice := sell.price
  let profitLoss := totalExitRevenue - totalEntryCost
  let profitLossPercent : Option ℚ :=
    if totalEntryCost = 0 then none else some (profitLoss / totalEntryCost * 100)
  let entryDate := ((buys.headD sell).date)
  let exitDate := sell.date
  { symbol := sell.symbol
    name := sell.name
    country := sell.country
    entryDate := entryDate
    avgEntryPrice := avgEntryPrice
    totalQuantity := totalQuantity
    totalEntryCost := totalEntryCost
    exitDate := exitDate
    avgExitPrice := avgExitPrice
    totalExitRevenue := totalExitRevenue
    profitLoss := profitLoss
    profitLossPercent := profitLossPercent
    holdingDays := calculateHoldingDays entryDate exitDate
    entryTradeIds := buys.filterMap (fun b => b.id)
    exitTradeIds := sell.id.toList }

/-- A queue / input element: a trade tagged with its position in the
input list (its identity, used to track in-place mutation). -/
abbrev ITrade := Nat × Trade

/-- The `while (remainingSellQuantity > 0 && buyQueue.length > 0)` loop of
`matchBuysAndSells` (tradeAggregator.ts:62-82).  Returns
`(matchedBuys, buyQueue after the loop, write log)`; the write log records
the in-place `buy.quantity -= remainingSellQuantity` store of line 79 as
`(input position, value written)`, newest first. -/
def consume (remaining : ℚ) : List ITrade → List ITrade × List ITrade × List (Nat × ℚ)
  | [] => ([], [], [])
  | (i, buy) :: rest =>
    if remaining ≤ 0 then ([], (i, buy) :: rest, [])
    else if buy.quantity ≤ remaining then
      let r := consume (remaining - buy.quantity) rest
      ((i, buy) :: r.1, r.2.1, r.2.2)
    else
      ([(i, { buy with quantity := remaining })],
       (i, { buy with quantity := buy.quantity - remaining }) :: rest,
       [(i, buy.quantity - remaining)])

/-- Loop state of `matchBuysAndSells`: the buy queue, the `aggregated`
output accumulator, and the write log of in-place quantity stores. -/
structure MState where
  buyQueue : List ITrade
  aggregated : List AggregatedTrade
  writes : List (Nat × ℚ)
deriving DecidableEq, Repr

/-- One iteration of the `for (const trade of trades)` loop of
`matchBuysAndSells` (tradeAggregator.ts:53-90). -/
def matchStep (st : MState) (it : ITrade) : MState :=
  if it.2.side = Side.BUY then
    { st with buyQueue := st.buyQueue ++ [it] }
  else
    let r := consume it.2.quantity st.buyQueue
    { buyQueue := r.2.1
      aggregated :=
        st.aggregated ++
          (if r.1 = [] then [] else [createAggregatedTrade (r.1.map Prod.snd) it.2])
      writes := r.2.2 ++ st.writes }

/-- `matchBuysAndSells` (tradeAggregator.ts:49-93), with the final queue
and the write log exposed (the source discards the queue and performs the
writes in place). -/
def matchBuysAndSells (trades : List ITrade) : List AggregatedTrade × List ITrade × List (Nat × ℚ) :=
  let st := trades.foldl matchStep ⟨[], [], []⟩
  (st.aggregated, st.buyQueue, st.writes)

/-- The country field as it appears in the grouping key template string. -/
def CountryCode.str : CountryCode → String
  | CountryCode.JP => "JP"
  | CountryCode.US => "US"

/-- The key `` `${trade.symbol}_${trade.country}` `` of `groupBySymbol`
(tradeAggregator.ts:35). -/
def tradeKey (t : Trade) : String :=
  t.symbol ++ "_" ++ t.country.str

/-- One step of building a JavaScript object used as an insertion-ordered
multimap: append `a` to the group of `key a`, or append a new group at
the end.  (Object keys here always contain `_` or are date strings, so
JavaScript's property order is insertion order.) -/
def addToGroups {α : Type} (key : α → String) :
    List (String × List α) → α → List (String × List α)
  | [], a => [(key a, [a])]
  | (k, g) :: rest, a =>
    if k = key a then (k, g ++ [a]) :: rest else (k, g) :: addToGroups key rest a

/-- `groupBySymbol` generalized (tradeAggregator.ts:31-43 and the
`groups` map of `resampleData`): fold the insertion step over the list. -/
def groupsOf {α : Type} (key : α → String) (l : List α) : List (String × List α) :=
  l.foldl (addToGroups key) []

/-- The group stored under key `k` (empty when absent). -/
def groupGet {α : Type} (gs : List (String × List α)) (k : String) : List α :=
  ((gs.find? (fun p => p.1 = k)).map Prod.snd).getD []

/-- Look up the newest write for input position `i` in a write log. -/
def lastWrite (writes : List (Nat × ℚ)) (i : Nat) : Option ℚ :=
  (writes.find? (fun p => p.1 = i)).map Prod.snd

/-- The per-group date sort (tradeAggregator.ts:16-18):
`symbolTrades.sort((a, b) => new Date(a.date).getTime() - new Date(b.date).getTime())`.
`Array.prototype.sort` is stable (ES2019) and the comparator is a
consistent total preorder, so the result is the stable sorted
permutation, which `List.insertionSort` computes. -/
def sortByDate (l : List ITrade) : List ITrade :=
  List.insertionSort (fun a b : ITrade => a.2.date ≤ b.2.date) l

/-- One iteration of the `for (const symbolTrades of Object.values(...))`
loop of `aggregateTrades` (tradeAggregator.ts:14-23). -/
def groupStep (acc : List AggregatedTrade × List (Nat × ℚ)) (g : String × List ITrade) :
    List AggregatedTrade × List (Nat × ℚ) :=
  let m := matchBuysAndSells (sortByDate g.2)
  (acc.1 ++ m.1, acc.2 ++ m.2.2)

/-- Replay the in-place quantity writes onto the input list: the value an
input record's `quantity` field holds after `aggregateTrades` returns. -/
def applyWrites (writes : List (Nat × ℚ)) (indexed : List ITrade) : List Trade :=
  indexed.map (fun it =>
    match lastWrite writes it.1 with
    | some q => { it.2 with quantity := q }
    | none => it.2)

/-- `aggregateTrades` (tradeAggregator.ts:7-26).  Returns the produced
`AggregatedTrade` list together with the post-call state of the input
list: the source sorts fresh per-group arrays (so the input list's order
is untouched) but `buy.quantity -= …` writes through shared references,
so input records' `quantity` fields can change. -/
def aggregateTrades (trades : List Trade) : List AggregatedTrade × List Trade :=
  let indexed := trades.enum
  let groups := groupsOf (fun it => tradeKey it.2) indexed
  let result := groups.foldl groupStep (([] : List AggregatedTrade), ([] : List (Nat × ℚ)))
  (result.1, applyWrites result.2 indexed)

/-! ### Concrete inputs used by the claims -/

/-- A concrete BUY execution (symbol `A`, Japanese market). -/
def exBuy (id : Nat) (q p : ℚ) (d : Int) : Trade :=
  { id := some id, date := d, symbol := "A", name := "Asymbol",
    side := Side.BUY, quantity := q, price := p, country := CountryCode.JP }

/-- A concrete SELL execution (symbol `A`, Japanese market). -/
def exSell (id : Nat) (q p : ℚ) (d : Int) : Trade :=
  { id := some id, date := d, symbol := "A", name := "Asymbol",
    side := Side.SELL, quantity := q, price := p, country := CountryCode.JP }

/-- C1 failing input: one buy of 100, then one sell of 60 a day later. -/
def C1input : List Trade := [exBuy 1 100 10 0, exSell 2 60 20 86400000]

/-- C2 counterexample input: one buy of 100, then one sell of 30. -/
def C2input : List Trade := [exBuy 1 100 10 0, exSell 2 30 20 86400000]

/-- C3 failing input: a buy at unit price 0, then a sell, so the emitted
trade's total entry cost is 0. -/
def C3input : List Trade := [exBuy 1 1 0 0, exSell 2 1 10 86400000]

/-- C4 concrete scenario: a buy of 100 followed by sells of 60 then 40. -/
def C4input : List Trade :=
  [exBuy 1 100 10 0, exSell 2 60 20 86400000, exSell 3 40 30 172800000]

/-- The C4 scenario as `matchBuysAndSells` receives it (indexed, date
sorted — the input is already date-ascending). -/
def C4sorted : List ITrade := sortByDate C4input.enum

/-- C5 witness state: a lot queue holding one residual buy of 30. -/
def C5state : MState := ⟨[(0, exBuy 1 30 10 0)], [], []⟩

/-- C5 witness sell: quantity 50 exceeds the queue total 30. -/
def C5sell : Trade := exSell 2 50 20 86400000

/-- Total residual quantity held in a buy queue. -/
def queueTotal (q : List ITrade) : ℚ :=
  (q.map (fun it => it.2.quantity)).sum

/-- Forget a trade's `quantity` field (used to state which fields
`aggregateTrades` leaves untouched in its input). -/
def eraseQuantity (t : Trade) : Trade :=
  { t with quantity := 0 }

/-! ## The SBI CSV parser (`detectCountry`, `parseSBICSV`)

Shallow embedding of the parser module.  JavaScript string operations are
modelled on `List Char`:

* `line.includes(pat)` → `strContains`;
* `s.replace(/"/g, '')` → `stripQuotes`; `s.replace(/,/g, '')` →
  `removeCommas`;
* `parseFloat` → `jsParseFloat` (restricted to the sign/digits/fraction
  forms the exports contain; a parse that yields JavaScript `NaN` is
  `none`);
* the `Error` values thrown by `parseSBICSV` become the `ParseError`
  constructors (one per distinct message);
* the regex `([A-Z]{2,5})\s*\//` is `findTicker` (leftmost match with
  the engine's greedy-then-backtrack choice of the repetition count) and
  `/\s+[A-Z]{2,5}\s*$/` is `replaceSuffixTicker`. -/

/-- The parser's own `Trade` interface (the parser source file declares
its own record without `id`/`createdAt`; `quantity`/`price` are raw
`parseFloat` results, so `none` models `NaN`). -/
structure PTrade where
  date : String
  symbol : String
  name : String
  side : Side
  quantity : Option ℚ
  price : Option ℚ
  country : CountryCode
deriving DecidableEq, Repr

/-- The three `throw new Error(...)` messages of `parseSBICSV`, one
constructor per message. -/
inductive ParseError where
  | formatUndetected : ParseError
  | headerNotFoundJP : ParseError
  | headerNotFoundUS : ParseError
deriving DecidableEq, Repr

/-- `pat` occurs as a contiguous substring of `l` (JavaScript
`String.prototype.includes`). -/
def listContains (pat : List Char) : List Char → Bool
  | [] => pat.isPrefixOf []
  | c :: rest => pat.isPrefixOf (c :: rest) || listContains pat rest

/-- `s.includes(pat)`. -/
def strContains (s pat : String) : Bool :=
  listContains pat.data s.data

/-- `s.replace(/"/g, '')`. -/
def stripQuotes (s : String) : String :=
  ⟨s.data.filter (fun c => c ≠ '"')⟩

/-- `s.replace(/,/g, '')`. -/
def removeCommas (s : String) : String :=
  ⟨s.data.filter (fun c => c ≠ ',')⟩

/-- Digit run to number, most significant first. -/
def digitsToNat (l : List Char) : Nat :=
  l.foldl (fun a c => 10 * a + (c.toNat - 48)) 0

/-- `parseFloat(s)` for the shapes in scope: optional leading
whitespace, optional sign, decimal digits with an optional fraction,
trailing garbage ignored; no digits at all gives `NaN` (= `none`).
(Exponents and `Infinity` never occur in these CSV cells.) -/
def jsParseFloat (s : String) : Option ℚ :=
  let cs := s.data.dropWhile Char.isWhitespace
  let signed : ℚ × List Char :=
    match cs with
    | '-' :: t => (-1, t)
    | '+' :: t => (1, t)
    | _ => (1, cs)
  let intPart := signed.2.takeWhile Char.isDigit
  let rest := signed.2.dropWhile Char.isDigit
  let fracPart : List Char :=
    match rest with
    | '.' :: t => t.takeWhile Char.isDigit
    | _ => []
  if intPart = [] && fracPart = [] then none
  else some (signed.1 *
    ((digitsToNat intPart : ℚ) + (digitsToNat fracPart : ℚ) / ((10 : ℚ) ^ fracPart.length)))

/-- `s.split(sep)` for a one-character separator, on the character
list. -/
def splitOnChar (sep : Char) : List Char → List (List Char)
  | [] => [[]]
  | c :: rest =>
    match splitOnChar sep rest with
    | [] => [[]]
    | g :: gs => if c = sep then [] :: g :: gs else (c :: g) :: gs

/-- `s.trim()`: strip whitespace from both ends. -/
def trimChars (l : List Char) : List Char :=
  ((l.dropWhile Char.isWhitespace).reverse.dropWhile Char.isWhitespace).reverse

/-- `s.trim()` on `String`. -/
def strTrim (s : String) : String :=
  ⟨trimChars s.data⟩

/-- `s.split(sep)` on `String`, one-character separator. -/
def strSplitOn (sep : Char) (s : String) : List String :=
  (splitOnChar sep s.data).map (fun l => ⟨l⟩)

/-- `s.split(' / ')[0]`: everything before the first `" / "`
separator (the whole string when the separator is absent). -/
def takeUntilSlashSep : List Char → List Char
  | ' ' :: '/' :: ' ' :: _ => []
  | c :: rest => c :: takeUntilSlashSep rest
  | [] => []

/-- The non-empty trimmed lines (part_004:17 and 59):
`csvText.split('\n').map(l => l.trim()).filter(l => l !== "")`. -/
def csvLines (csvText : String) : List String :=
  ((strSplitOn (Char.ofNat 10) csvText).map strTrim).filter (fun l => l ≠ "")

/-- Layout-A (JP) header marker of the detection loop (part_004:22). -/
def headerJP (line : String) : Bool :=
  strContains line "銘柄コード"

/-- Layout-B (US) header marker of the detection loop (part_004:26). -/
def headerUS (line : String) : Bool :=
  strContains line "国内約定日" && strContains line "銘柄名"

/-- Data-line heuristic for US (part_004:36): a cell contains an
exchange name.  Cells are quote-stripped but (unlike the row parsers)
not trimmed. -/
def rowUS (line : String) : Bool :=
  ((strSplitOn ',' line).map stripQuotes).any
    (fun col => strContains col "New York Stock Exchange" || strContains col "NASDAQ")

/-- Data-line heuristic for JP (part_004:41): a cell is a 4-5 digit
numeric code (`/^\d{4,5}$/`). -/
def rowJP (line : String) : Bool :=
  ((strSplitOn ',' line).map stripQuotes).any
    (fun col => col.data.all Char.isDigit && decide (4 ≤ col.length) && decide (col.length ≤ 5))

/-- `detectCountry` (part_004:16-47): first a header scan over all
lines (JP marker checked before US within each line), then the data-line
heuristic over `lines.slice(1, 10)` (US checked before JP). -/
def detectCountry (csvText : String) : Option CountryCode :=
  let lines := csvLines csvText
  match lines.findSome? (fun line =>
      if headerJP line then some CountryCode.JP
      else if headerUS line then some CountryCode.US
      else none) with
  | some c => some c
  | none =>
    ((lines.drop 1).take 9).findSome? (fun line =>
      if rowUS line then some CountryCode.US
      else if rowJP line then some CountryCode.JP
      else none)

/-- Cells of a data row (part_004:75 and 109):
`line.split(',').map(c => c.replace(/"/g, '').trim())`. -/
def rowCols (line : String) : List String :=
  (strSplitOn ',' line).map (fun c => strTrim (stripQuotes c))

/-- One row of the JP branch (the part_004:71-94 `forEach` body);
`none` = the row is skipped. -/
def parseJPRow (line : String) : Option PTrade :=
  if strTrim line = "" then none
  else
    let cols := rowCols line
    if cols.length < 10 then none
    else if cols.getD 2 "" = "" || cols.getD 2 "" = "--" then none
    else
      let tradeType := cols.getD 4 ""
      if !(strContains tradeType "買" || strContains tradeType "売") then none
      else some {
        date := cols.getD 0 ""
        symbol := cols.getD 2 ""
        name := cols.getD 1 ""
        side := if strContains tradeType "買" then Side.BUY else Side.SELL
        quantity := jsParseFloat (removeCommas (cols.getD 8 ""))
        price := jsParseFloat (removeCommas (cols.getD 9 ""))
        country := CountryCode.JP }

/-- ASCII upper-case letter (the regex class `[A-Z]`). -/
def upperAZ (c : Char) : Bool :=
  decide ('A' ≤ c) && decide (c ≤ 'Z')

/-- Does `([A-Z]{2,5})\s*\//` match at the start of `cs`?  The engine
takes the repetition greedily and backtracks, so the counts are tried in
the order 5, 4, 3, 2; a successful attempt needs `k` upper-case letters
followed (after any whitespace) by a slash.  Returns the capture. -/
def tickerMatchAt (cs : List Char) : Option (List Char) :=
  [5, 4, 3, 2].findSome? (fun k =>
    let u := cs.take k
    if decide (u.length = k) && u.all upperAZ &&
        (match (cs.drop k).dropWhile Char.isWhitespace with
         | '/' :: _ => true
         | [] => false
         | _ :: _ => false) then some u else none)

/-- Leftmost match of `([A-Z]{2,5})\s*\//`
(`symbolNameCol.match(...)`, part_004:114): scan start positions left to
right. -/
def findTicker : List Char → Option (List Char)
  | [] => none
  | c :: rest =>
    match tickerMatchAt (c :: rest) with
    | some t => some t
    | none => findTicker rest

/-- Does `/\s+[A-Z]{2,5}\s*$/` match the whole of `cs`?  (Equivalent
deterministic form: a non-empty whitespace run, then an upper-case run
of length 2-5, then only whitespace.) -/
def suffixTickerMatch (cs : List Char) : Bool :=
  let rest := cs.dropWhile Char.isWhitespace
  let u := rest.takeWhile upperAZ
  decide (1 ≤ (cs.takeWhile Char.isWhitespace).length) &&
    decide (2 ≤ u.length) && decide (u.length ≤ 5) &&
    (rest.dropWhile upperAZ).all Char.isWhitespace

/-- `s.replace(/\s+[A-Z]{2,5}\s*$/, '')`: drop the suffix starting at
the leftmost position where the pattern matches to the end. -/
def replaceSuffixTicker : List Char → List Char
  | [] => []
  | c :: rest =>
    if suffixTickerMatch (c :: rest) then [] else c :: replaceSuffixTicker rest

/-- `cols[0].replace(/年|月/g, '/').replace(/日/g, '')` (part_004:126). -/
def jsFormatDateUS (s : String) : String :=
  ⟨(s.data.map (fun c => if c = '年' || c = '月' then '/' else c)).filter (fun c => c ≠ '日')⟩

/-- One row of the US branch (the part_004:105-137 `forEach` body);
`none` = the row is skipped. -/
def parseUSRow (line : String) : Option PTrade :=
  if strTrim line = "" then none
  else
    let cols := rowCols line
    if cols.length < 7 then none
    else
      let symbolNameCol := cols.getD 2 ""
      let ticker : String :=
        match findTicker symbolNameCol.data with
        | some t => ⟨t⟩
        | none => symbolNameCol
      let nameMatch : String := ⟨takeUntilSlashSep symbolNameCol.data⟩
      let name := strTrim ⟨replaceSuffixTicker nameMatch.data⟩
      let tradeType := cols.getD 3 ""
      if !(strContains tradeType "買" || strContains tradeType "売") then none
      else some {
        date := jsFormatDateUS (cols.getD 0 "")
        symbol := ticker
        name := name
        side := if strContains tradeType "買" then Side.BUY else Side.SELL
        quantity := jsParseFloat (removeCommas (cols.getD 5 ""))
        price := jsParseFloat (removeCommas (cols.getD 6 ""))
        country := CountryCode.US }

/-- JP header-row predicate of the structural parse (part_004:64). -/
def headerLineJP (l : String) : Bool :=
  strContains l "約定日" && strContains l "銘柄コード"

/-- US header-row predicate of the structural parse (part_004:98). -/
def headerLineUS (l : String) : Bool :=
  strContains l "国内約定日" && strContains l "銘柄名"

/-- `parseSBICSV` (part_004:52-141).  A thrown `Error` is an
`Except.error` carrying the constructor for its message. -/
def parseSBICSV (csvText : String) : Except ParseError (List PTrade) :=
  match detectCountry csvText with
  | none => Except.error ParseError.formatUndetected
  | some CountryCode.JP =>
    let lines := csvLines csvText
    match lines.findIdx? headerLineJP with
    | none => Except.error ParseError.headerNotFoundJP
    | some headerIndex => Except.ok ((lines.drop (headerIndex + 1)).filterMap parseJPRow)
  | some CountryCode.US =>
    let lines := csvLines csvText
    match lines.findIdx? headerLineUS with
    | none => Except.error ParseError.headerNotFoundUS
    | some headerIndex => Except.ok ((lines.drop (headerIndex + 1)).filterMap parseUSRow)

/-- C10 witness row: seven cells, a buy marker, and a symbol/name cell
with no ticker match (NASDAQ is six letters, so `[A-Z]{2,5}` followed by
a slash never matches in it). -/
def C10line : String :=
  "2025年10月03日,USD,テスト / NASDAQ,買付,注文,10,5.5"

/-! ## The OHLCV bar resampler (`stockDataService.ts`)

`resampleData` groups bars by a string key, sorts the keys, and
recomputes OHLCV per bucket.  The key functions use JavaScript `Date`;
the embedding fixes the runtime timezone to UTC, which turns `Date`
arithmetic on `"YYYY-MM-DD"` strings into pure Gregorian calendar
arithmetic on day numbers (days since 1970-01-01).  `Date.parse` of a
malformed or invalid calendar date yields `Invalid Date` (on which the
source's `toISOString` would throw); `parseDate` models that as `none`,
and the key functions return their argument unchanged in that
unreachable case. -/

/-- `CandleData` (stockDataService.ts:12-19). -/
structure CandleData where
  time : String
  «open» : ℚ
  high : ℚ
  low : ℚ
  close : ℚ
  volume : ℚ
deriving DecidableEq, Repr

/-- Length of a Gregorian month. -/
def daysInMonth (y m : Nat) : Nat :=
  if m = 2 then (if (y % 4 = 0 ∧ y % 100 ≠ 0) ∨ y % 400 = 0 then 29 else 28)
  else if m = 4 ∨ m = 6 ∨ m = 9 ∨ m = 11 then 30 else 31

/-- Parse a `"YYYY-MM-DD"` time string (the documented `CandleData.time`
format) to `(year, month, day)`, validating the calendar date the way
`Date.parse` does; anything else is `Invalid Date` (= `none`). -/
def parseDate (s : String) : Option (Nat × Nat × Nat) :=
  match s.data with
  | [y1, y2, y3, y4, h1, m1, m2, h2, d1, d2] =>
    if ([y1, y2, y3, y4, m1, m2, d1, d2].all Char.isDigit) &&
        decide (h1 = Char.ofNat 45) && decide (h2 = Char.ofNat 45) then
      if 1 ≤ digitsToNat [m1, m2] ∧ digitsToNat [m1, m2] ≤ 12 ∧ 1 ≤ digitsToNat [d1, d2] ∧
          digitsToNat [d1, d2] ≤ daysInMonth (digitsToNat [y1, y2, y3, y4]) (digitsToNat [m1, m2])
      then some (digitsToNat [y1, y2, y3, y4], digitsToNat [m1, m2], digitsToNat [d1, d2])
      else none
    else none
  | _ => none

/-- Zero-padded `k`-digit decimal rendering (the field formatting of
`toISOString`). -/
def padDigits : Nat → Nat → List Char
  | 0, _ => []
  | k + 1, n => padDigits k (n / 10) ++ [Char.ofNat (48 + n % 10)]

/-- `"YYYY-MM-DD"` (the date part of `toISOString`). -/
def formatDate (y m d : Nat) : String :=
  ⟨padDigits 4 y ++ Char.ofNat 45 :: padDigits 2 m ++ Char.ofNat 45 :: padDigits 2 d⟩

/-- Days since 1970-01-01 of a Gregorian date (the day-number arithmetic
behind `Date` for date-only values; Lean's `Int` `/` rounds toward
negative infinity for positive divisors, which is what the algorithm
needs). -/
def daysFromCivil (y m d : Int) : Int :=
  let y2 := if m ≤ 2 then y - 1 else y
  let era := y2 / 400
  let yoe := y2 - era * 400
  let mp := if 2 < m then m - 3 else m + 9
  let doy := (153 * mp + 2) / 5 + d - 1
  let doe := yoe * 365 + yoe / 4 - yoe / 100 + doy
  era * 146097 + doe - 719468

/-- Inverse of `daysFromCivil`. -/
def civilFromDays (z0 : Int) : Int × Int × Int :=
  let z := z0 + 719468
  let era := z / 146097
  let doe := z % 146097
  let yoe := (doe - doe / 1460 + doe / 36524 - doe / 146096) / 365
  let y := yoe + era * 400
  let doy := doe - (365 * yoe + yoe / 4 - yoe / 100)
  let mp := (5 * doy + 2) / 153
  let d := doy - (153 * mp + 2) / 5 + 1
  let m := if mp < 10 then mp + 3 else mp - 9
  (if m ≤ 2 then y + 1 else y, m, d)

/-- `getDay()` on a day number: 0 = Sunday … 6 = Saturday (day 0,
1970-01-01, was a Thursday). -/
def weekday (n : Int) : Int :=
  (n + 4) % 7

/-- The day-number form of the week-key computation
(stockDataService.ts:140-143): `date − day + (day === 0 ? −6 : 1)`
with `day = getDay()` — the Monday on or before `n`. -/
def mondayOf (n : Int) : Int :=
  let day := weekday n
  n - day + (if day = 0 then -6 else 1)

/-- The `getKey` of `resampleToWeekly` (stockDataService.ts:138-144)
under a UTC runtime. -/
def weekKey (s : String) : String :=
  match parseDate s with
  | none => s
  | some (y, m, d) =>
    let c := civilFromDays (mondayOf (daysFromCivil y m d))
    formatDate c.1.toNat c.2.1.toNat c.2.2.toNat

/-- The `getKey` of `resampleToMonthly` (stockDataService.ts:150-156)
under a UTC runtime: `new Date(yr, mo, 1)` maps two-digit years to
`1900 + yr` (the legacy `Date(year, …)` constructor rule), then
`toISOString` renders the first of the month. -/
def monthKey (s : String) : String :=
  match parseDate s with
  | none => s
  | some (y, m, _) =>
    let y2 := if y < 100 then 1900 + y else y
    formatDate y2 m 1

/-- Placeholder bar: `group[0]`/`group[group.length - 1]` in the source
are always applied to non-empty groups, so the default is never read. -/
def dummyCandle : CandleData :=
  ⟨"", 0, 0, 0, 0, 0⟩

/-- `Math.max(...xs)` over a non-empty list (`Math.max()` of an empty
spread is `-Infinity`, never reached: every group is non-empty). -/
def maxOf : List ℚ → ℚ
  | [] => 0
  | x :: xs => xs.foldl max x

/-- `Math.min(...xs)` over a non-empty list. -/
def minOf : List ℚ → ℚ
  | [] => 0
  | x :: xs => xs.foldl min x

/-- The per-bucket aggregation of `resampleData`
(stockDataService.ts:184-209): open = first of the group (input order;
for date-ordered input this is date order), close = last, high = max,
low = min, volume = sum. -/
def bucketOf (groups : List (String × List CandleData)) (k : String) : CandleData :=
  let group := groupGet groups k
  { time := k
    «open» := (group.headD dummyCandle).«open»
    high := maxOf (group.map (fun c => c.high))
    low := minOf (group.map (fun c => c.low))
    close := (group.getLastD dummyCandle).close
    volume := group.foldl (fun sum c => sum + c.volume) 0 }

/-- `resampleData` (stockDataService.ts:161-213): group by
`getKey(candle.time)` in an insertion-ordered map, sort the keys
(JavaScript default string sort = lexicographic), and aggregate each
group. -/
def resampleData (candles : List CandleData) (getKey : String → String) : List CandleData :=
  if candles.length = 0 then []
  else
    let groups := groupsOf (fun c => getKey c.time) candles
    let sortedKeys := List.insertionSort (fun a b : String => a ≤ b) (groups.map Prod.fst)
    sortedKeys.map (bucketOf groups)

/-- `resampleToWeekly` (stockDataService.ts:137-145). -/
def resampleToWeekly (candles : List CandleData) : List CandleData :=
  resampleData candles weekKey

/-- `resampleToMonthly` (stockDataService.ts:150-156). -/
def resampleToMonthly (candles : List CandleData) : List CandleData :=
  resampleData candles monthKey

/-- C8 concrete input: the five Mon-Fri daily bars of the claim
(2024-01-01 is a Monday). -/
def C8bars : List CandleData :=
  [⟨"2024-01-01", 10, 12, 9, 11, 100⟩,
   ⟨"2024-01-02", 11, 13, 10, 9, 200⟩,
   ⟨"2024-01-03", 9, 11, 8, 12, 150⟩,
   ⟨"2024-01-04", 12, 14, 11, 13, 300⟩,
   ⟨"2024-01-05", 13, 15, 12, 14, 250⟩]

/-! ## Helper lemmas -/

lemma foldl_add_eq {α : Type} (f : α → ℚ) (l : List α) (a : ℚ) :
    l.foldl (fun s b => s + f b) a = a + (l.map f).sum := by
  induction l generalizing a with
  | nil => simp
  | cons x xs ih => simp [List.foldl_cons, ih (a + f x)]; ring

lemma groupGet_nil {α : Type} (k : String) : groupGet ([] : List (String × List α)) k = [] := rfl

lemma groupGet_cons {α : Type} (k' : String) (g : List α) (rest : List (String × List α))
    (k : String) :
    groupGet ((k', g) :: rest) k = if k' = k then g else groupGet rest k := by
  by_cases h : k' = k
  · rw [groupGet, List.find?_cons_of_pos _ (by simp [h]), if_pos h]
    rfl
  · rw [groupGet, List.find?_cons_of_neg _ (by simp [h]), if_neg h]
    rfl

lemma addToGroups_cons {α : Type} (key : α → String) (k' : String) (g : List α)
    (rest : List (String × List α)) (a : α) :
    addToGroups key ((k', g) :: rest) a =
      if k' = key a then (k', g ++ [a]) :: rest else (k', g) :: addToGroups key rest a := rfl

lemma groupGet_addToGroups {α : Type} (key : α → String) (gs : List (String × List α))
    (a : α) (k : String) :
    groupGet (addToGroups key gs a) k =
      groupGet gs k ++ if key a = k then [a] else [] := by
  induction gs with
  | nil =>
    by_cases h : key a = k <;>
      simp [addToGroups, groupGet_cons, groupGet_nil, h]
  | cons p rest ih =>
    obtain ⟨k', g⟩ := p
    rw [addToGroups_cons]
    by_cases h1 : k' = key a
    · rw [if_pos h1, groupGet_cons, groupGet_cons]
      by_cases h2 : k' = k
      · rw [if_pos h2, if_pos (h1.symm.trans h2), if_pos h2]
      · rw [if_neg h2, if_neg h2, if_neg (fun h => h2 (h1.trans h)), List.append_nil]
    · rw [if_neg h1, groupGet_cons, groupGet_cons]
      by_cases h2 : k' = k
      · rw [if_pos h2, if_pos h2,
          if_neg (fun h : key a = k => h1 (h2.trans h.symm)), List.append_nil]
      · rw [if_neg h2, if_neg h2, ih]

lemma groupGet_foldl {α : Type} (key : α → String) (l : List α)
    (gs : List (String × List α)) (k : String) :
    groupGet (l.foldl (addToGroups key) gs) k =
      groupGet gs k ++ l.filter (fun a => key a = k) := by
  induction l generalizing gs with
  | nil => simp
  | cons x xs ih =>
    rw [List.foldl_cons, ih, groupGet_addToGroups]
    by_cases h : key x = k <;> simp [List.filter_cons, h]

/-- The group stored under `k` is exactly the key-`k` elements of the
input, in input order. -/
lemma groupGet_groupsOf {α : Type} (key : α → String) (l : List α) (k : String) :
    groupGet (groupsOf key l) k = l.filter (fun a => key a = k) := by
  rw [groupsOf, groupGet_foldl]; rfl

lemma mem_keys_addToGroups {α : Type} (key : α → String) (gs : List (String × List α))
    (a : α) (k : String) :
    k ∈ (addToGroups key gs a).map Prod.fst ↔ k ∈ gs.map Prod.fst ∨ key a = k := by
  induction gs with
  | nil => simp [addToGroups, eq_comm]
  | cons p rest ih =>
    obtain ⟨k', g⟩ := p
    rw [addToGroups_cons]
    by_cases h : k' = key a
    · rw [if_pos h]
      simp only [List.map_cons, List.mem_cons]
      constructor
      · rintro (h1 | h1)
        · exact Or.inl (Or.inl h1)
        · exact Or.inl (Or.inr h1)
      · rintro ((h1 | h1) | h1)
        · exact Or.inl h1
        · exact Or.inr h1
        · exact Or.inl (h.trans h1).symm
    · rw [if_neg h]
      simp only [List.map_cons, List.mem_cons, ih]
      tauto

lemma mem_keys_foldl {α : Type} (key : α → String) (l : List α)
    (gs : List (String × List α)) (k : String) :
    k ∈ (l.foldl (addToGroups key) gs).map Prod.fst ↔
      k ∈ gs.map Prod.fst ∨ ∃ a ∈ l, key a = k := by
  induction l generalizing gs with
  | nil => simp
  | cons x xs ih =>
    rw [List.foldl_cons, ih, mem_keys_addToGroups]
    simp; tauto

/-- A key appears among the groups exactly when some input element maps
to it. -/
lemma mem_keys_groupsOf {α : Type} (key : α → String) (l : List α) (k : String) :
    k ∈ (groupsOf key l).map Prod.fst ↔ ∃ a ∈ l, key a = k := by
  rw [groupsOf, mem_keys_foldl]; simp

lemma keys_nodup_addToGroups {α : Type} (key : α → String) (gs : List (String × List α))
    (a : α) (h : (gs.map Prod.fst).Nodup) :
    ((addToGroups key gs a).map Prod.fst).Nodup := by
  revert h
  induction gs with
  | nil => intro h; simp [addToGroups]
  | cons p rest ih =>
    obtain ⟨k', g⟩ := p
    intro h
    rw [List.map_cons, List.nodup_cons] at h
    rw [addToGroups_cons]
    by_cases h1 : k' = key a
    · rw [if_pos h1, List.map_cons, List.nodup_cons]
      exact h
    · rw [if_neg h1, List.map_cons, List.nodup_cons]
      refine ⟨fun hk2 => ?_, ih h.2⟩
      rw [mem_keys_addToGroups] at hk2
      rcases hk2 with hk2 | hk2
      · exact h.1 hk2
      · exact h1 hk2.symm

/-- Group keys are distinct. -/
lemma keys_nodup_groupsOf {α : Type} (key : α → String) (l : List α) :
    (((groupsOf key l).map Prod.fst)).Nodup := by
  rw [groupsOf]
  have : ∀ gs : List (String × List α), (gs.map Prod.fst).Nodup →
      ((l.foldl (addToGroups key) gs).map Prod.fst).Nodup := by
    induction l with
    | nil => exact fun gs h => h
    | cons x xs ih =>
      intro gs h
      rw [List.foldl_cons]
      exact ih _ (keys_nodup_addToGroups key gs x h)
  exact this [] (by simp)

lemma groupsOf_mem_prop_step {α : Type} (key : α → String) (P : α → Prop)
    (gs : List (String × List α)) (a : α)
    (hgs : ∀ p ∈ gs, ∀ x ∈ p.2, P x) (ha : P a) :
    ∀ p ∈ addToGroups key gs a, ∀ x ∈ p.2, P x := by
  revert hgs
  induction gs with
  | nil =>
    intro _ p hp x hx
    simp only [addToGroups, List.mem_singleton] at hp
    subst hp
    simp only [List.mem_singleton] at hx
    subst hx
    exact ha
  | cons q rest ih =>
    obtain ⟨k', g⟩ := q
    intro hgs p hp x hx
    rw [addToGroups_cons] at hp
    by_cases h1 : k' = key a
    · rw [if_pos h1] at hp
      rcases List.mem_cons.mp hp with hp | hp
      · subst hp
        rcases List.mem_append.mp hx with hx | hx
        · exact hgs (k', g) (by simp) x hx
        · rw [List.mem_singleton] at hx
          subst hx
          exact ha
      · exact hgs p (List.mem_cons_of_mem _ hp) x hx
    · rw [if_neg h1] at hp
      rcases List.mem_cons.mp hp with hp | hp
      · subst hp
        exact hgs (k', g) (by simp) x hx
      · exact ih (fun q hq => hgs q (List.mem_cons_of_mem _ hq)) p hp x hx

/-- Every element of every group comes from the input list (stated as
preservation of an arbitrary property). -/
lemma groupsOf_mem_prop {α : Type} (key : α → String) (P : α → Prop) (l : List α)
    (h : ∀ a ∈ l, P a) : ∀ p ∈ groupsOf key l, ∀ x ∈ p.2, P x := by
  rw [groupsOf]
  have main : ∀ (l2 : List α) (gs : List (String × List α)),
      (∀ p ∈ gs, ∀ x ∈ p.2, P x) → (∀ a ∈ l2, P a) →
      ∀ p ∈ l2.foldl (addToGroups key) gs, ∀ x ∈ p.2, P x := by
    intro l2
    induction l2 with
    | nil => intro gs hgs _; exact hgs
    | cons x xs ih =>
      intro gs hgs hl
      rw [List.foldl_cons]
      exact ih _ (groupsOf_mem_prop_step key P gs x hgs (hl x (by simp)))
        (fun a ha => hl a (by simp [ha]))
  exact main l [] (by simp) h

/-! ## Lemmas about the matching loop -/

lemma consume_nil (r : ℚ) : consume r [] = ([], [], []) := rfl

lemma queueTotal_cons (i : Nat) (b : Trade) (tl : List ITrade) :
    queueTotal ((i, b) :: tl) = b.quantity + queueTotal tl := by
  simp [queueTotal]

/-- A sell larger than the whole queue consumes the queue entirely, with
no split (so no in-place write). -/
lemma consume_all (r : ℚ) (Q : List ITrade)
    (hnn : ∀ it ∈ Q, 0 ≤ (Prod.snd it).quantity)
    (hlt : queueTotal Q < r) :
    consume r Q = (Q, [], []) := by
  induction Q generalizing r with
  | nil => rfl
  | cons hd tl ih =>
    obtain ⟨i, b⟩ := hd
    have htl : ∀ it ∈ tl, 0 ≤ (Prod.snd it).quantity :=
      fun it h => hnn it (List.mem_cons_of_mem _ h)
    have hsum : 0 ≤ queueTotal tl := by
      apply List.sum_nonneg
      intro x hx
      obtain ⟨it, hit, rfl⟩ := List.mem_map.mp hx
      exact htl it hit
    have hq0 : 0 ≤ b.quantity := hnn (i, b) (by simp)
    rw [queueTotal_cons] at hlt
    have hr : 0 < r := lt_of_le_of_lt (by linarith) hlt
    have hble : b.quantity ≤ r := by linarith
    have hrec : queueTotal tl < r - b.quantity := by linarith
    simp only [consume]
    rw [if_neg (not_le.mpr hr), if_pos hble, ih (r - b.quantity) htl hrec]

lemma matchStep_sell (st : MState) (j : Nat) (s : Trade) (hside : s.side = Side.SELL) :
    matchStep st (j, s) =
      { buyQueue := (consume s.quantity st.buyQueue).2.1
        aggregated := st.aggregated ++
          (if (consume s.quantity st.buyQueue).1 = [] then []
           else [createAggregatedTrade ((consume s.quantity st.buyQueue).1.map Prod.snd) s])
        writes := (consume s.quantity st.buyQueue).2.2 ++ st.writes } := by
  rw [matchStep, if_neg (by simp [hside])]

lemma matchStep_sell_empty (st : MState) (j : Nat) (s : Trade)
    (hside : s.side = Side.SELL) (hq : st.buyQueue = []) :
    matchStep st (j, s) = st := by
  rw [matchStep_sell st j s hside, hq]
  cases st
  simp_all [consume_nil]

lemma foldl_matchStep_all_sell (l : List ITrade) (st : MState)
    (hq : st.buyQueue = []) (hl : ∀ it ∈ l, (Prod.snd it).side = Side.SELL) :
    l.foldl matchStep st = st := by
  induction l generalizing st with
  | nil => rfl
  | cons x xs ih =>
    have hx := hl x (by simp)
    obtain ⟨j, s⟩ := x
    rw [List.foldl_cons, matchStep_sell_empty st j s hx hq]
    exact ih st hq (fun it h => hl it (List.mem_cons_of_mem _ h))

lemma matchBuysAndSells_all_sell (l : List ITrade)
    (hl : ∀ it ∈ l, (Prod.snd it).side = Side.SELL) :
    matchBuysAndSells l = ([], [], []) := by
  rw [matchBuysAndSells, foldl_matchStep_all_sell l ⟨[], [], []⟩ rfl hl]

lemma foldl_groupStep_nil (groups : List (String × List ITrade))
    (h : ∀ g ∈ groups, matchBuysAndSells (sortByDate g.2) = ([], [], []))
    (acc : List AggregatedTrade × List (Nat × ℚ)) :
    groups.foldl groupStep acc = acc := by
  induction groups generalizing acc with
  | nil => rfl
  | cons g gs ih =>
    have hstep : groupStep acc g = acc := by
      simp only [groupStep, h g (by simp), List.append_nil]
    rw [List.foldl_cons, hstep]
    exact ih (fun g hg => h g (List.mem_cons_of_mem _ hg)) acc

lemma applyWrites_empty (indexed : List ITrade) :
    applyWrites [] indexed = indexed.map Prod.snd := rfl

lemma createAggregatedTrade_totalQuantity (buys : List Trade) (s : Trade) :
    (createAggregatedTrade buys s).totalQuantity = (buys.map (fun b => b.quantity)).sum := by
  simp [createAggregatedTrade, foldl_add_eq]

lemma createAggregatedTrade_totalExitRevenue (buys : List Trade) (s : Trade) :
    (createAggregatedTrade buys s).totalExitRevenue =
      s.price * (buys.map (fun b => b.quantity)).sum := by
  simp [createAggregatedTrade, foldl_add_eq]

lemma applyWrites_fields (w : List (Nat × ℚ)) (L : List Trade) (i : Nat)
    (h1 : i < (applyWrites w L.enum).length) (h2 : i < L.length) :
    (applyWrites w L.enum).get ⟨i, h1⟩ =
      (match lastWrite w i with
       | some q => { L.get ⟨i, h2⟩ with quantity := q }
       | none => L.get ⟨i, h2⟩) := by
  simp [applyWrites, List.getElem_map, List.getElem_enum]

lemma sell_ne_buy : (Side.SELL = Side.BUY) = False := eq_false (by decide)

lemma buy_eq_buy : (Side.BUY = Side.BUY) = True := eq_true rfl

/-! ## Lemmas about the resampler -/

lemma foldl_max_spec (xs : List ℚ) (a : ℚ) :
    (xs.foldl max a = a ∨ xs.foldl max a ∈ xs) ∧
      a ≤ xs.foldl max a ∧ ∀ x ∈ xs, x ≤ xs.foldl max a := by
  induction xs generalizing a with
  | nil => simp
  | cons y ys ih =>
    obtain ⟨h1, h2, h3⟩ := ih (max a y)
    simp only [List.foldl_cons]
    refine ⟨?_, ?_, ?_⟩
    · rcases h1 with h | h
      · rcases max_choice a y with hm | hm
        · exact Or.inl (h.trans hm)
        · exact Or.inr (by rw [h, hm]; exact List.mem_cons_self y ys)
      · exact Or.inr (List.mem_cons_of_mem _ h)
    · exact le_trans (le_max_left a y) h2
    · intro x hx
      rcases List.mem_cons.mp hx with rfl | hx
      · exact le_trans (le_max_right a x) h2
      · exact h3 x hx

lemma foldl_min_spec (xs : List ℚ) (a : ℚ) :
    (xs.foldl min a = a ∨ xs.foldl min a ∈ xs) ∧
      xs.foldl min a ≤ a ∧ ∀ x ∈ xs, xs.foldl min a ≤ x := by
  induction xs generalizing a with
  | nil => simp
  | cons y ys ih =>
    obtain ⟨h1, h2, h3⟩ := ih (min a y)
    simp only [List.foldl_cons]
    refine ⟨?_, ?_, ?_⟩
    · rcases h1 with h | h
      · rcases min_choice a y with hm | hm
        · exact Or.inl (h.trans hm)
        · exact Or.inr (by rw [h, hm]; exact List.mem_cons_self y ys)
      · exact Or.inr (List.mem_cons_of_mem _ h)
    · exact le_trans h2 (min_le_left a y)
    · intro x hx
      rcases List.mem_cons.mp hx with rfl | hx
      · exact le_trans h2 (min_le_right a x)
      · exact h3 x hx

lemma maxOf_mem (l : List ℚ) (h : l ≠ []) : maxOf l ∈ l := by
  cases l with
  | nil => exact absurd rfl h
  | cons x xs =>
    rcases (foldl_max_spec xs x).1 with h1 | h1
    · rw [maxOf, h1]; exact List.mem_cons_self x xs
    · rw [maxOf]; exact List.mem_cons_of_mem _ h1

lemma le_maxOf (l : List ℚ) (x : ℚ) (h : x ∈ l) : x ≤ maxOf l := by
  cases l with
  | nil => cases h
  | cons y ys =>
    rcases List.mem_cons.mp h with h1 | h1
    · rw [maxOf, h1]; exact (foldl_max_spec ys y).2.1
    · rw [maxOf]; exact (foldl_max_spec ys y).2.2 x h1

lemma minOf_mem (l : List ℚ) (h : l ≠ []) : minOf l ∈ l := by
  cases l with
  | nil => exact absurd rfl h
  | cons x xs =>
    rcases (foldl_min_spec xs x).1 with h1 | h1
    · rw [minOf, h1]; exact List.mem_cons_self x xs
    · rw [minOf]; exact List.mem_cons_of_mem _ h1

lemma minOf_le (l : List ℚ) (x : ℚ) (h : x ∈ l) : minOf l ≤ x := by
  cases l with
  | nil => cases h
  | cons y ys =>
    rcases List.mem_cons.mp h with h1 | h1
    · rw [minOf, h1]; exact (foldl_min_spec ys y).2.1
    · rw [minOf]; exact (foldl_min_spec ys y).2.2 x h1

lemma resampleData_eq (candles : List CandleData) (getKey : String → String)
    (h : candles ≠ []) :
    resampleData candles getKey =
      (List.insertionSort (fun a b : String => a ≤ b)
        ((groupsOf (fun c => getKey c.time) candles).map Prod.fst)).map
        (bucketOf (groupsOf (fun c => getKey c.time) candles)) := by
  rw [resampleData, if_neg (by simpa using h)]

lemma bucketOf_time (groups : List (String × List CandleData)) (k : String) :
    (bucketOf groups k).time = k := rfl

lemma resampleData_map_time (candles : List CandleData) (getKey : String → String)
    (h : candles ≠ []) :
    (resampleData candles getKey).map (fun b => b.time) =
      List.insertionSort (fun a b : String => a ≤ b)
        ((groupsOf (fun c => getKey c.time) candles).map Prod.fst) := by
  rw [resampleData_eq candles getKey h, List.map_map]
  exact List.map_id _

lemma resampleData_times_sorted (candles : List CandleData) (getKey : String → String) :
    List.Sorted (fun a b : String => a ≤ b)
      ((resampleData candles getKey).map (fun b => b.time)) := by
  by_cases h : candles = []
  · subst h
    simp [resampleData]
  · rw [resampleData_map_time candles getKey h]
    exact List.sorted_insertionSort _ _

lemma mem_resampleData (candles : List CandleData) (getKey : String → String)
    (b : CandleData) (h : b ∈ resampleData candles getKey) :
    b.time ∈ ((groupsOf (fun c => getKey c.time) candles).map Prod.fst) ∧
      b = bucketOf (groupsOf (fun c => getKey c.time) candles) b.time := by
  have hne : candles ≠ [] := by
    intro he
    rw [he] at h
    simp [resampleData] at h
  rw [resampleData_eq candles getKey hne] at h
  obtain ⟨k, hk, rfl⟩ := List.mem_map.mp h
  rw [bucketOf_time]
  exact ⟨((List.perm_insertionSort _ _).mem_iff).mp hk, rfl⟩

lemma resampleData_times_nodup (candles : List CandleData) (getKey : String → String) :
    ((resampleData candles getKey).map (fun b => b.time)).Nodup := by
  by_cases h : candles = []
  · subst h
    simp [resampleData]
  · rw [resampleData_map_time candles getKey h]
    exact ((List.perm_insertionSort _ _).nodup_iff).mpr (keys_nodup_groupsOf _ _)

lemma mem_keys_resampleData (candles : List CandleData) (getKey : String → String)
    (c : CandleData) (h : c ∈ candles) :
    getKey c.time ∈ (resampleData candles getKey).map (fun b => b.time) := by
  have hne : candles ≠ [] := List.ne_nil_of_mem h
  rw [resampleData_map_time candles getKey hne]
  exact ((List.perm_insertionSort _ _).mem_iff).mpr
    ((mem_keys_groupsOf _ candles _).mpr ⟨c, h, rfl⟩)

/-! ## Date round-trip lemmas -/

lemma padDigits_two (n : Nat) :
    padDigits 2 n = [Char.ofNat (48 + n / 10 % 10), Char.ofNat (48 + n % 10)] := by
  simp [padDigits]

lemma padDigits_four (n : Nat) :
    padDigits 4 n = [Char.ofNat (48 + n / 1000 % 10), Char.ofNat (48 + n / 100 % 10),
      Char.ofNat (48 + n / 10 % 10), Char.ofNat (48 + n % 10)] := by
  simp [padDigits, Nat.div_div_eq_div_mul]

lemma digitChar_isDigit (x : Nat) : (Char.ofNat (48 + x % 10)).isDigit = true := by
  have key : ∀ r, r < 10 → (Char.ofNat (48 + r)).isDigit = true := by decide
  exact key (x % 10) (Nat.mod_lt x (by norm_num))

lemma digitChar_toNat (x : Nat) : (Char.ofNat (48 + x % 10)).toNat = 48 + x % 10 := by
  have key : ∀ r, r < 10 → (Char.ofNat (48 + r)).toNat = 48 + r := by decide
  exact key (x % 10) (Nat.mod_lt x (by norm_num))

lemma daysInMonth_pos (y m : Nat) : 1 ≤ daysInMonth y m := by
  rw [daysInMonth]
  split_ifs <;> norm_num

lemma daysInMonth_le (y m : Nat) : daysInMonth y m ≤ 31 := by
  rw [daysInMonth]
  split_ifs <;> norm_num

/-- `Date.parse` inverts the `toISOString` date rendering on valid
dates. -/
lemma parseDate_formatDate (y m d : Nat) (hy : y < 10000) (hm1 : 1 ≤ m) (hm2 : m ≤ 12)
    (hd1 : 1 ≤ d) (hd2 : d ≤ daysInMonth y m) :
    parseDate (formatDate y m d) = some (y, m, d) := by
  have hm100 : m < 100 := lt_of_le_of_lt hm2 (by norm_num)
  have hd100 : d < 100 := lt_of_le_of_lt (le_trans hd2 (daysInMonth_le y m)) (by norm_num)
  have hdata : (formatDate y m d).data =
      [Char.ofNat (48 + y / 1000 % 10), Char.ofNat (48 + y / 100 % 10),
       Char.ofNat (48 + y / 10 % 10), Char.ofNat (48 + y % 10), Char.ofNat 45,
       Char.ofNat (48 + m / 10 % 10), Char.ofNat (48 + m % 10), Char.ofNat 45,
       Char.ofNat (48 + d / 10 % 10), Char.ofNat (48 + d % 10)] := by
    rw [formatDate, padDigits_four, padDigits_two, padDigits_two]
    rfl
  rw [parseDate, hdata]
  have hy4 : digitsToNat [Char.ofNat (48 + y / 1000 % 10), Char.ofNat (48 + y / 100 % 10),
      Char.ofNat (48 + y / 10 % 10), Char.ofNat (48 + y % 10)] = y := by
    simp only [digitsToNat, List.foldl_cons, List.foldl_nil, digitChar_toNat]
    omega
  have hm2d : digitsToNat [Char.ofNat (48 + m / 10 % 10), Char.ofNat (48 + m % 10)] = m := by
    simp only [digitsToNat, List.foldl_cons, List.foldl_nil, digitChar_toNat]
    omega
  have hd2d : digitsToNat [Char.ofNat (48 + d / 10 % 10), Char.ofNat (48 + d % 10)] = d := by
    simp only [digitsToNat, List.foldl_cons, List.foldl_nil, digitChar_toNat]
    omega
  simp only [List.all_cons, List.all_nil, digitChar_isDigit, Bool.and_self, Bool.and_true,
    Bool.true_and, hy4, hm2d, hd2d]
  rw [if_pos (by decide), if_pos ⟨hm1, hm2, hd1, hd2⟩]

/-! ## Singleton-group lemmas -/

lemma addToGroups_fresh {α : Type} (key : α → String) (gs : List (String × List α)) (a : α)
    (h : key a ∉ gs.map Prod.fst) :
    addToGroups key gs a = gs ++ [(key a, [a])] := by
  induction gs with
  | nil => rfl
  | cons p rest ih =>
    obtain ⟨k, g⟩ := p
    rw [addToGroups_cons, if_neg, List.cons_append, ih]
    · intro hrest
      exact h (by simp [hrest])
    · intro hk
      exact h (by simp [hk])

lemma groupsOf_singletons {α : Type} (key : α → String) (l : List α)
    (h : (l.map key).Nodup) :
    groupsOf key l = l.map (fun a => (key a, [a])) := by
  have main : ∀ (l2 : List α) (gs : List (String × List α)),
      (gs.map Prod.fst ++ l2.map key).Nodup →
      l2.foldl (addToGroups key) gs = gs ++ l2.map (fun a => (key a, [a])) := by
    intro l2
    induction l2 with
    | nil => intro gs _; simp
    | cons a rest ih =>
      intro gs hnd
      have hfresh : key a ∉ gs.map Prod.fst := by
        intro hmem
        exact (List.nodup_append.mp (by simpa using hnd)).2.2 hmem (List.mem_cons_self _ _)
      rw [List.foldl_cons, addToGroups_fresh key gs a hfresh, ih]
      · simp
      · rw [List.map_append, List.append_assoc]
        simpa using hnd
  have := main l [] (by simpa using h)
  simpa [groupsOf] using this

lemma isDigit_toNat_bounds (c : Char) (h : c.isDigit = true) :
    48 ≤ c.toNat ∧ c.toNat - 48 < 10 := by
  simp only [Char.isDigit, Bool.and_eq_true, decide_eq_true_eq] at h
  obtain ⟨h1, h2⟩ := h
  simp only [ge_iff_le, Char.le_def, UInt32.le_def, BitVec.le_def] at h1 h2
  have e0 : c.toNat = c.val.toBitVec.toNat := rfl
  have e1 : ((48 : UInt32)).toBitVec.toNat = 48 := rfl
  have e2 : ((57 : UInt32)).toBitVec.toNat = 57 := rfl
  omega

lemma digitsToNat_foldl_lt (l : List Char) (a : Nat) (h : ∀ c ∈ l, c.isDigit = true) :
    l.foldl (fun a c => 10 * a + (c.toNat - 48)) a < (a + 1) * 10 ^ l.length := by
  induction l generalizing a with
  | nil => simp
  | cons c cs ih =>
    have hc := (isDigit_toNat_bounds c (h c (List.mem_cons_self _ _))).2
    have hrec := ih (10 * a + (c.toNat - 48)) (fun x hx => h x (List.mem_cons_of_mem _ hx))
    simp only [List.foldl_cons, List.length_cons]
    calc cs.foldl (fun a c => 10 * a + (c.toNat - 48)) (10 * a + (c.toNat - 48))
        < (10 * a + (c.toNat - 48) + 1) * 10 ^ cs.length := hrec
      _ ≤ ((a + 1) * 10) * 10 ^ cs.length := Nat.mul_le_mul_right _ (by omega)
      _ = (a + 1) * 10 ^ (cs.length + 1) := by ring

lemma digitsToNat_lt (l : List Char) (h : ∀ c ∈ l, c.isDigit = true) :
    digitsToNat l < 10 ^ l.length := by
  have := digitsToNat_foldl_lt l 0 h
  simpa [digitsToNat] using this

lemma parseDate_bounds (s : String) (y m d : Nat) (h : parseDate s = some (y, m, d)) :
    y < 10000 ∧ 1 ≤ m ∧ m ≤ 12 ∧ 1 ≤ d ∧ d ≤ daysInMonth y m := by
  rw [parseDate] at h
  split at h
  case h_2 => exact absurd h (by simp)
  case h_1 =>
    rename_i c1 c2 c3 c4 c5 c6 c7 c8 c9 c10 heq
    split at h
    case isFalse => exact absurd h (by simp)
    case isTrue hcond =>
      split at h
      case isFalse => exact absurd h (by simp)
      case isTrue hvalid =>
        injection h with h1
        rw [Prod.mk.injEq, Prod.mk.injEq] at h1
        obtain ⟨hyy, hmm, hdd⟩ := h1
        subst hyy
        subst hmm
        subst hdd
        refine ⟨?_, hvalid.1, hvalid.2.1, hvalid.2.2.1, hvalid.2.2.2⟩
        rw [Bool.and_eq_true, Bool.and_eq_true, List.all_eq_true] at hcond
        have hdig : ∀ c ∈ [c1, c2, c3, c4], c.isDigit = true := by
          intro c hc
          apply hcond.1.1
          simp only [List.mem_cons, List.not_mem_nil, or_false] at hc ⊢
          tauto
        have hb := digitsToNat_lt [c1, c2, c3, c4] hdig
        have h10 : (10 : Nat) ^ ([c1, c2, c3, c4] : List Char).length = 10000 := by
          norm_num [List.length]
        rw [h10] at hb
        exact hb

lemma monthKey_eq (s : String) (y m d : Nat) (h : parseDate s = some (y, m, d)) :
    monthKey s = formatDate (if y < 100 then 1900 + y else y) m 1 := by
  rw [monthKey, h]

lemma monthKey_stable (s : String) (h : (parseDate s).isSome = true) :
    monthKey (monthKey s) = monthKey s := by
  obtain ⟨⟨y, m, d⟩, hp⟩ := Option.isSome_iff_exists.mp h
  obtain ⟨hy, hm1, hm2, _, _⟩ := parseDate_bounds s y m d hp
  have hy2a : 100 ≤ (if y < 100 then 1900 + y else y) := by split_ifs <;> omega
  have hy2b : (if y < 100 then 1900 + y else y) < 10000 := by split_ifs <;> omega
  rw [monthKey_eq s y m d hp,
    monthKey_eq (formatDate (if y < 100 then 1900 + y else y) m 1) _ m 1
      (parseDate_formatDate _ m 1 hy2b hm1 hm2 (le_refl 1) (daysInMonth_pos _ m)),
    if_neg (not_lt.mpr hy2a)]

lemma groupGet_map_singleton {α : Type} (keyf : α → String) (l : List α)
    (h : (l.map keyf).Nodup) (b : α) (hb : b ∈ l) :
    groupGet (l.map (fun a => (keyf a, [a]))) (keyf b) = [b] := by
  induction l with
  | nil => cases hb
  | cons x xs ih =>
    rw [List.map_cons, List.nodup_cons] at h
    rw [List.map_cons, groupGet_cons]
    rcases List.mem_cons.mp hb with hbx | hb2
    · subst hbx
      rw [if_pos rfl]
    · have hne : keyf x ≠ keyf b := fun he => h.1 (he ▸ List.mem_map_of_mem keyf hb2)
      rw [if_neg hne]
      exact ih h.2 hb2

lemma bucketOf_open (groups : List (String × List CandleData)) (k : String) :
    (bucketOf groups k).«open» = ((groupGet groups k).headD dummyCandle).«open» := rfl

lemma bucketOf_high (groups : List (String × List CandleData)) (k : String) :
    (bucketOf groups k).high = maxOf ((groupGet groups k).map (fun c => c.high)) := rfl

lemma bucketOf_low (groups : List (String × List CandleData)) (k : String) :
    (bucketOf groups k).low = minOf ((groupGet groups k).map (fun c => c.low)) := rfl

lemma bucketOf_close (groups : List (String × List CandleData)) (k : String) :
    (bucketOf groups k).close = ((groupGet groups k).getLastD dummyCandle).close := rfl

lemma bucketOf_volume (groups : List (String × List CandleData)) (k : String) :
    (bucketOf groups k).volume = (groupGet groups k).foldl (fun sum c => sum + c.volume) 0 := rfl

lemma bucketOf_singleton (groups : List (String × List CandleData)) (b : CandleData)
    (h : groupGet groups b.time = [b]) : bucketOf groups b.time = b := by
  cases b with
  | mk t o hi lo cl v =>
    simp only [bucketOf, h, List.headD, List.getLastD, List.map_cons, List.map_nil,
      maxOf, minOf, List.foldl_cons, List.foldl_nil]
    congr 1
    exact zero_add v


/-! ## Claim theorems -/

set_option maxRecDepth 16000

/-- C1: the claim says a second `aggregate` call on the same (externally
unmodified) list yields identical output.  It does not: the first call
decrements `buy.quantity` in place on a partially consumed buy
(tradeAggregator.ts:79), so the second call sees quantity 40 instead of
100 and emits a different trade.  This theorem evaluates the code at the
failing input `C1input` (buy 100, sell 60): the first call's output
differs from the second call's output, and the first call has mutated
the input list. -/
theorem C1_second_call_differs :
    (aggregateTrades ((aggregateTrades C1input).2)).1 ≠ (aggregateTrades C1input).1 ∧
    (aggregateTrades C1input).2 ≠ C1input := by
  have hb : matchStep ⟨[], [], []⟩ (0, exBuy 1 100 10 0) = ⟨[(0, exBuy 1 100 10 0)], [], []⟩ := by
    norm_num [matchStep, exBuy]
  have hs : matchStep ⟨[(0, exBuy 1 100 10 0)], [], []⟩ (1, exSell 2 60 20 86400000) =
      ⟨[(0, { exBuy 1 100 10 0 with quantity := 40 })],
        [createAggregatedTrade [{ exBuy 1 100 10 0 with quantity := 60 }]
          (exSell 2 60 20 86400000)],
        [(0, 40)]⟩ := by
    norm_num [matchStep, consume, exBuy, exSell, sell_ne_buy]
  have hT1 : createAggregatedTrade [{ exBuy 1 100 10 0 with quantity := 60 }]
      (exSell 2 60 20 86400000) =
      { symbol := "A", name := "Asymbol", country := CountryCode.JP, entryDate := 0,
        avgEntryPrice := some 10, totalQuantity := 60, totalEntryCost := 600,
        exitDate := 86400000, avgExitPrice := 20, totalExitRevenue := 1200,
        profitLoss := 600, profitLossPercent := some 100, holdingDays := 1,
        entryTradeIds := [1], exitTradeIds := [2] } := by
    norm_num [createAggregatedTrade, calculateHoldingDays, List.filterMap, exBuy, exSell]
  have hmbs : matchBuysAndSells C1input.enum =
      ([{ symbol := "A", name := "Asymbol", country := CountryCode.JP, entryDate := 0,
          avgEntryPrice := some 10, totalQuantity := 60, totalEntryCost := 600,
          exitDate := 86400000, avgExitPrice := 20, totalExitRevenue := 1200,
          profitLoss := 600, profitLossPercent := some 100, holdingDays := 1,
          entryTradeIds := [1], exitTradeIds := [2] }],
        [(0, { exBuy 1 100 10 0 with quantity := 40 })], [(0, 40)]) := by
    simp only [matchBuysAndSells]
    rw [show C1input.enum = [(0, exBuy 1 100 10 0), (1, exSell 2 60 20 86400000)] from rfl,
      List.foldl_cons, hb, List.foldl_cons, hs, List.foldl_nil, hT1]
  have hgroups : groupsOf (fun it : ITrade => tradeKey it.2) C1input.enum =
      [("A_JP", C1input.enum)] := by decide
  have hsort : sortByDate C1input.enum = C1input.enum := by decide
  have happly : applyWrites [(0, (40 : ℚ))] C1input.enum =
      [{ exBuy 1 100 10 0 with quantity := 40 }, exSell 2 60 20 86400000] := by decide
  have hagg1 : aggregateTrades C1input =
      ([{ symbol := "A", name := "Asymbol", country := CountryCode.JP, entryDate := 0,
          avgEntryPrice := some 10, totalQuantity := 60, totalEntryCost := 600,
          exitDate := 86400000, avgExitPrice := 20, totalExitRevenue := 1200,
          profitLoss := 600, profitLossPercent := some 100, holdingDays := 1,
          entryTradeIds := [1], exitTradeIds := [2] }],
        [{ exBuy 1 100 10 0 with quantity := 40 }, exSell 2 60 20 86400000]) := by
    simp only [aggregateTrades]
    rw [hgroups, List.foldl_cons, List.foldl_nil]
    simp only [groupStep]
    rw [hsort, hmbs]
    simp only [List.nil_append]
    rw [happly]
  have hb2 : matchStep ⟨[], [], []⟩ (0, { exBuy 1 100 10 0 with quantity := 40 }) =
      ⟨[(0, { exBuy 1 100 10 0 with quantity := 40 })], [], []⟩ := by
    norm_num [matchStep, exBuy]
  have hs2 : matchStep ⟨[(0, { exBuy 1 100 10 0 with quantity := 40 })], [], []⟩
      (1, exSell 2 60 20 86400000) =
      ⟨[], [createAggregatedTrade [{ exBuy 1 100 10 0 with quantity := 40 }]
        (exSell 2 60 20 86400000)], []⟩ := by
    norm_num [matchStep, consume, exBuy, exSell, sell_ne_buy]
  have hT2 : createAggregatedTrade [{ exBuy 1 100 10 0 with quantity := 40 }]
      (exSell 2 60 20 86400000) =
      { symbol := "A", name := "Asymbol", country := CountryCode.JP, entryDate := 0,
        avgEntryPrice := some 10, totalQuantity := 40, totalEntryCost := 400,
        exitDate := 86400000, avgExitPrice := 20, totalExitRevenue := 800,
        profitLoss := 400, profitLossPercent := some 100, holdingDays := 1,
        entryTradeIds := [1], exitTradeIds := [2] } := by
    norm_num [createAggregatedTrade, calculateHoldingDays, List.filterMap, exBuy, exSell]
  have hmbs2 : matchBuysAndSells
      ([{ exBuy 1 100 10 0 with quantity := 40 }, exSell 2 60 20 86400000] : List Trade).enum =
      ([{ symbol := "A", name := "Asymbol", country := CountryCode.JP, entryDate := 0,
          avgEntryPrice := some 10, totalQuantity := 40, totalEntryCost := 400,
          exitDate := 86400000, avgExitPrice := 20, totalExitRevenue := 800,
          profitLoss := 400, profitLossPercent := some 100, holdingDays := 1,
          entryTradeIds := [1], exitTradeIds := [2] }], ([] : List ITrade),
        ([] : List (Nat × ℚ))) := by
    simp only [matchBuysAndSells]
    rw [show ([{ exBuy 1 100 10 0 with quantity := 40 }, exSell 2 60 20 86400000] :
        List Trade).enum =
      [(0, { exBuy 1 100 10 0 with quantity := 40 }), (1, exSell 2 60 20 86400000)] from rfl,
      List.foldl_cons, hb2, List.foldl_cons, hs2, List.foldl_nil, hT2]
  have hgroups2 : groupsOf (fun it : ITrade => tradeKey it.2)
      ([{ exBuy 1 100 10 0 with quantity := 40 }, exSell 2 60 20 86400000] : List Trade).enum =
      [("A_JP",
        ([{ exBuy 1 100 10 0 with quantity := 40 }, exSell 2 60 20 86400000] :
          List Trade).enum)] := by decide
  have hsort2 : sortByDate
      ([{ exBuy 1 100 10 0 with quantity := 40 }, exSell 2 60 20 86400000] :
        List Trade).enum =
      ([{ exBuy 1 100 10 0 with quantity := 40 }, exSell 2 60 20 86400000] :
        List Trade).enum := by decide
  have hagg2 : aggregateTrades
      [{ exBuy 1 100 10 0 with quantity := 40 }, exSell 2 60 20 86400000] =
      ([{ symbol := "A", name := "Asymbol", country := CountryCode.JP, entryDate := 0,
          avgEntryPrice := some 10, totalQuantity := 40, totalEntryCost := 400,
          exitDate := 86400000, avgExitPrice := 20, totalExitRevenue := 800,
          profitLoss := 400, profitLossPercent := some 100, holdingDays := 1,
          entryTradeIds := [1], exitTradeIds := [2] }],
        [{ exBuy 1 100 10 0 with quantity := 40 }, exSell 2 60 20 86400000]) := by
    simp only [aggregateTrades]
    rw [hgroups2, List.foldl_cons, List.foldl_nil]
    simp only [groupStep]
    rw [hsort2, hmbs2]
    simp only [List.nil_append, List.append_nil]
    rfl
  refine ⟨?_, ?_⟩
  · simp only [hagg1]
    simp only [hagg2]
    decide
  · simp only [hagg1]
    decide

/-- C2 counterexample: `aggregate` is not a pure transform of its input:
on `C2input` (buy 100, sell 30) the input buy record's `quantity` field
is decremented to 70 in place, so the post-call input list differs from
the original. -/
theorem C2_not_pure : ¬ ((aggregateTrades C2input).2 = C2input) := by
  norm_num [aggregateTrades, applyWrites, groupsOf, addToGroups, tradeKey, CountryCode.str,
    sortByDate, matchBuysAndSells, matchStep, consume, createAggregatedTrade, lastWrite,
    groupStep, exBuy, exSell, C2input, calculateHoldingDays, List.insertionSort,
    List.orderedInsert, List.enum, List.enumFrom, List.find?, List.foldl,
    sell_ne_buy, buy_eq_buy]

/-- C2 amended: `aggregate` preserves the length and order of the input
list and every field of every input record except `quantity` (the
`buy.quantity -= …` store of tradeAggregator.ts:79 is the only write
into the caller's records): erasing the `quantity` field makes the
post-call input list equal to the original. -/
theorem C2_frame_all_fields_except_quantity (L : List Trade) :
    (aggregateTrades L).2.map eraseQuantity = L.map eraseQuantity := by
  have h : ∀ (w : List (Nat × ℚ)),
      (applyWrites w L.enum).map eraseQuantity = L.map eraseQuantity := by
    intro w
    rw [applyWrites, List.map_map]
    conv_rhs => rw [← List.enum_map_snd L, List.map_map]
    congr 1
    funext it
    rcases h : lastWrite w it.1 with _ | q <;>
      simp [h, eraseQuantity, Function.comp]
  exact h (((groupsOf (fun it : ITrade => tradeKey it.2) L.enum).foldl groupStep ([], [])).2)

/-- C3: the claim (and the spec) require that a zero entry cost yield a
profit/loss percent of 0.  The code divides by `totalEntryCost`
unguarded (tradeAggregator.ts:110), producing a non-finite number
(`Infinity`/`NaN`, modelled as `none`) instead of 0.  Evaluating the
code at `C3input` (a buy at price 0, then a sell): the emitted trade has
`totalEntryCost = 0` and a non-finite `profitLossPercent`, not 0. -/
theorem C3_zero_cost_percent_nonfinite :
    (aggregateTrades C3input).1.map (fun t => (t.totalEntryCost, t.profitLossPercent)) =
      [(0, none)] := by
  norm_num [aggregateTrades, applyWrites, groupsOf, addToGroups, tradeKey, CountryCode.str,
    sortByDate, matchBuysAndSells, matchStep, consume, createAggregatedTrade, lastWrite,
    groupStep, exBuy, exSell, C3input, calculateHoldingDays, List.insertionSort,
    List.orderedInsert, List.enum, List.enumFrom, List.find?, List.foldl,
    sell_ne_buy, buy_eq_buy]

/-- C4: a SELL consumes buy fragments strictly from the head of the
queue — a head fragment with quantity ≤ remaining is fully consumed and
removed, a larger head fragment is split with only its residual
decremented — and the concrete scenario: a buy of 100 followed by sells
of 60 then 40 yields exactly two round-trip trades (quantities 60 and
40), both referencing the single buy (entry id 1), with the buy queue
empty afterwards. -/
theorem C4_fifo_head_consumption :
    (∀ (r : ℚ) (i : Nat) (b : Trade) (rest : List ITrade), 0 < r →
      (b.quantity ≤ r →
        consume r ((i, b) :: rest) =
          ((i, b) :: (consume (r - b.quantity) rest).1,
            (consume (r - b.quantity) rest).2.1,
            (consume (r - b.quantity) rest).2.2)) ∧
      (r < b.quantity →
        consume r ((i, b) :: rest) =
          ([(i, { b with quantity := r })],
            (i, { b with quantity := b.quantity - r }) :: rest,
            [(i, b.quantity - r)]))) ∧
    (aggregateTrades C4input).1.map (fun t => (t.totalQuantity, t.entryTradeIds)) =
      [(60, [1]), (40, [1])] ∧
    (matchBuysAndSells C4sorted).2.1 = [] := by
  have hb : matchStep ⟨[], [], []⟩ (0, exBuy 1 100 10 0) = ⟨[(0, exBuy 1 100 10 0)], [], []⟩ := by
    norm_num [matchStep, exBuy]
  have hs1 : matchStep ⟨[(0, exBuy 1 100 10 0)], [], []⟩ (1, exSell 2 60 20 86400000) =
      ⟨[(0, { exBuy 1 100 10 0 with quantity := 40 })],
        [createAggregatedTrade [{ exBuy 1 100 10 0 with quantity := 60 }]
          (exSell 2 60 20 86400000)],
        [(0, 40)]⟩ := by
    norm_num [matchStep, consume, exBuy, exSell, sell_ne_buy]
  have hs2 : ∀ (A : List AggregatedTrade) (W : List (Nat × ℚ)),
      matchStep ⟨[(0, { exBuy 1 100 10 0 with quantity := 40 })], A, W⟩
        (2, exSell 3 40 30 172800000) =
      ⟨[], A ++ [createAggregatedTrade [{ exBuy 1 100 10 0 with quantity := 40 }]
        (exSell 3 40 30 172800000)], W⟩ := by
    intro A W
    norm_num [matchStep, consume, exBuy, exSell, sell_ne_buy]
  have hT1 : createAggregatedTrade [{ exBuy 1 100 10 0 with quantity := 60 }]
      (exSell 2 60 20 86400000) =
      { symbol := "A", name := "Asymbol", country := CountryCode.JP, entryDate := 0,
        avgEntryPrice := some 10, totalQuantity := 60, totalEntryCost := 600,
        exitDate := 86400000, avgExitPrice := 20, totalExitRevenue := 1200,
        profitLoss := 600, profitLossPercent := some 100, holdingDays := 1,
        entryTradeIds := [1], exitTradeIds := [2] } := by
    norm_num [createAggregatedTrade, calculateHoldingDays, List.filterMap, exBuy, exSell]
  have hT2 : createAggregatedTrade [{ exBuy 1 100 10 0 with quantity := 40 }]
      (exSell 3 40 30 172800000) =
      { symbol := "A", name := "Asymbol", country := CountryCode.JP, entryDate := 0,
        avgEntryPrice := some 10, totalQuantity := 40, totalEntryCost := 400,
        exitDate := 172800000, avgExitPrice := 30, totalExitRevenue := 1200,
        profitLoss := 800, profitLossPercent := some 200, holdingDays := 2,
        entryTradeIds := [1], exitTradeIds := [3] } := by
    norm_num [createAggregatedTrade, calculateHoldingDays, List.filterMap, exBuy, exSell]
  have hmbs : matchBuysAndSells C4input.enum =
      ([{ symbol := "A", name := "Asymbol", country := CountryCode.JP, entryDate := 0,
          avgEntryPrice := some 10, totalQuantity := 60, totalEntryCost := 600,
          exitDate := 86400000, avgExitPrice := 20, totalExitRevenue := 1200,
          profitLoss := 600, profitLossPercent := some 100, holdingDays := 1,
          entryTradeIds := [1], exitTradeIds := [2] },
        { symbol := "A", name := "Asymbol", country := CountryCode.JP, entryDate := 0,
          avgEntryPrice := some 10, totalQuantity := 40, totalEntryCost := 400,
          exitDate := 172800000, avgExitPrice := 30, totalExitRevenue := 1200,
          profitLoss := 800, profitLossPercent := some 200, holdingDays := 2,
          entryTradeIds := [1], exitTradeIds := [3] }],
        ([] : List ITrade), [(0, (40 : ℚ))]) := by
    simp only [matchBuysAndSells]
    rw [show C4input.enum = [(0, exBuy 1 100 10 0), (1, exSell 2 60 20 86400000),
        (2, exSell 3 40 30 172800000)] from rfl,
      List.foldl_cons, hb, List.foldl_cons, hs1, List.foldl_cons, hs2, List.foldl_nil,
      hT1, hT2]
    rfl
  have hgroups : groupsOf (fun it : ITrade => tradeKey it.2) C4input.enum =
      [("A_JP", C4input.enum)] := by decide
  have hsort : sortByDate C4input.enum = C4input.enum := by decide
  refine ⟨?_, ?_, ?_⟩
  · intro r i b rest hr
    constructor
    · intro hle
      simp only [consume]
      rw [if_neg (not_le.mpr hr), if_pos hle]
    · intro hlt
      simp only [consume]
      rw [if_neg (not_le.mpr hr), if_neg (not_le.mpr hlt)]
  · have hagg : (aggregateTrades C4input).1 =
        [{ symbol := "A", name := "Asymbol", country := CountryCode.JP, entryDate := 0,
           avgEntryPrice := some 10, totalQuantity := 60, totalEntryCost := 600,
           exitDate := 86400000, avgExitPrice := 20, totalExitRevenue := 1200,
           profitLoss := 600, profitLossPercent := some 100, holdingDays := 1,
           entryTradeIds := [1], exitTradeIds := [2] },
         { symbol := "A", name := "Asymbol", country := CountryCode.JP, entryDate := 0,
           avgEntryPrice := some 10, totalQuantity := 40, totalEntryCost := 400,
           exitDate := 172800000, avgExitPrice := 30, totalExitRevenue := 1200,
           profitLoss := 800, profitLossPercent := some 200, holdingDays := 2,
           entryTradeIds := [1], exitTradeIds := [3] }] := by
      simp only [aggregateTrades]
      rw [hgroups, List.foldl_cons, List.foldl_nil]
      simp only [groupStep]
      rw [hsort, hmbs]
      rfl
    rw [hagg]
    decide
  · show (matchBuysAndSells (sortByDate C4input.enum)).2.1 = []
    rw [hsort, hmbs]

/-- C4 witness: the split case of the head-consumption rule at the
concrete head fragment of the scenario (buy of 100, remaining 60). -/
theorem C4_witness :
    (0 : ℚ) < 60 ∧ (60 : ℚ) < (exBuy 1 100 10 0).quantity ∧
    consume 60 [(0, exBuy 1 100 10 0)] =
      ([(0, { exBuy 1 100 10 0 with quantity := 60 })],
        [(0, { exBuy 1 100 10 0 with quantity := (exBuy 1 100 10 0).quantity - 60 })],
        [(0, (exBuy 1 100 10 0).quantity - 60)]) :=
  ⟨by norm_num, by norm_num [exBuy],
    (C4_fifo_head_consumption.1 60 0 (exBuy 1 100 10 0) [] (by norm_num)).2
      (by norm_num [exBuy])⟩

/-- C5: a SELL whose quantity exceeds the queue's total residual
consumes the whole queue, emits exactly one trade whose total quantity
is the sum of the consumed fragments and whose exit revenue is the sell
unit price times that matched quantity, drops the remainder, and (being
a total function) raises no error. -/
theorem C5_oversized_sell (st : MState) (j : Nat) (s : Trade)
    (hside : s.side = Side.SELL) (hne : st.buyQueue ≠ [])
    (hnn : ∀ it ∈ st.buyQueue, 0 ≤ (Prod.snd it).quantity)
    (hlt : queueTotal st.buyQueue < s.quantity) :
    matchStep st (j, s) =
      { buyQueue := []
        aggregated := st.aggregated ++ [createAggregatedTrade (st.buyQueue.map Prod.snd) s]
        writes := st.writes } ∧
    (createAggregatedTrade (st.buyQueue.map Prod.snd) s).totalQuantity =
      queueTotal st.buyQueue ∧
    (createAggregatedTrade (st.buyQueue.map Prod.snd) s).totalExitRevenue =
      s.price * queueTotal st.buyQueue := by
  have hc := consume_all s.quantity st.buyQueue hnn hlt
  refine ⟨?_, ?_, ?_⟩
  · rw [matchStep_sell st j s hside, hc]
    simp [hne]
  · rw [createAggregatedTrade_totalQuantity, queueTotal, List.map_map]
    rfl
  · rw [createAggregatedTrade_totalExitRevenue, queueTotal, List.map_map]
    rfl

/-- C5 witness: a queue holding a residual buy of 30 met by a sell of
50: one trade of quantity 30 and revenue 20 × 30 is emitted, the queue
is emptied, the extra 20 vanishes. -/
theorem C5_witness :
    C5sell.side = Side.SELL ∧ C5state.buyQueue ≠ [] ∧
    (∀ it ∈ C5state.buyQueue, 0 ≤ (Prod.snd it).quantity) ∧
    queueTotal C5state.buyQueue < C5sell.quantity ∧
    (matchStep C5state (1, C5sell) =
      { buyQueue := []
        aggregated := C5state.aggregated ++
          [createAggregatedTrade (C5state.buyQueue.map Prod.snd) C5sell]
        writes := C5state.writes } ∧
    (createAggregatedTrade (C5state.buyQueue.map Prod.snd) C5sell).totalQuantity =
      queueTotal C5state.buyQueue ∧
    (createAggregatedTrade (C5state.buyQueue.map Prod.snd) C5sell).totalExitRevenue =
      C5sell.price * queueTotal C5state.buyQueue) :=
  ⟨rfl, by simp [C5state], by norm_num [C5state, exBuy],
    by norm_num [queueTotal, C5state, C5sell, exBuy, exSell],
    C5_oversized_sell C5state 1 C5sell rfl (by simp [C5state])
      (by norm_num [C5state, exBuy])
      (by norm_num [queueTotal, C5state, C5sell, exBuy, exSell])⟩

/-- C6: a SELL arriving with an empty lot queue produces no trade and
leaves the queue (and the whole state) unchanged; an all-SELL execution
list produces zero trades and leaves the input untouched; and the empty
list yields empty output.  The engine is a total function, so no
exception is possible on these degenerate inputs. -/
theorem C6_sell_without_prior_buys :
    (∀ (st : MState) (j : Nat) (s : Trade),
        s.side = Side.SELL → st.buyQueue = [] → matchStep st (j, s) = st) ∧
    (∀ L : List Trade, (∀ t ∈ L, t.side = Side.SELL) → aggregateTrades L = ([], L)) ∧
    aggregateTrades ([] : List Trade) = ([], []) := by
  refine ⟨fun st j s h1 h2 => matchStep_sell_empty st j s h1 h2, ?_, rfl⟩
  intro L hL
  have hind : ∀ it ∈ L.enum, (Prod.snd it).side = Side.SELL := by
    intro it h
    apply hL it.2
    rw [← List.enum_map_snd L]
    exact List.mem_map_of_mem _ h
  have hgroups : ∀ g ∈ groupsOf (fun it : ITrade => tradeKey it.2) L.enum,
      matchBuysAndSells (sortByDate g.2) = ([], [], []) := by
    intro g hg
    apply matchBuysAndSells_all_sell
    intro it h
    exact groupsOf_mem_prop _ _ L.enum hind g hg it
      ((List.perm_insertionSort _ g.2).mem_iff.mp h)
  show (_, applyWrites _ _) = _
  rw [foldl_groupStep_nil _ hgroups, applyWrites_empty, List.enum_map_snd]

/-- C6 witness: a single sell with no prior buy yields no trades and
leaves the list as it was. -/
theorem C6_witness :
    (∀ t ∈ [exSell 9 5 7 0], t.side = Side.SELL) ∧
    aggregateTrades [exSell 9 5 7 0] = ([], [exSell 9 5 7 0]) :=
  ⟨by simp [exSell], C6_sell_without_prior_buys.2.1 [exSell 9 5 7 0] (by simp [exSell])⟩

/-- C7: `parseSBICSV` fails with the `FormatUndetected` error exactly
when no line carries a Layout A or Layout B header marker and the
data-line heuristic (exchange-name cell ⇒ US, 4-5 digit numeric cell ⇒
JP, over lines 1..9) also fails; the `Except.error` result carries no
records, so no partial parse is produced in that case. -/
theorem C7_format_undetected_iff (csvText : String) :
    parseSBICSV csvText = Except.error ParseError.formatUndetected ↔
      (∀ l ∈ csvLines csvText, headerJP l = false ∧ headerUS l = false) ∧
      (∀ l ∈ ((csvLines csvText).drop 1).take 9, rowUS l = false ∧ rowJP l = false) := by
  have key : parseSBICSV csvText = Except.error ParseError.formatUndetected ↔
      detectCountry csvText = none := by
    cases h : detectCountry csvText with
    | none => simp [parseSBICSV, h]
    | some c =>
      cases c with
      | JP =>
        cases hidx : (csvLines csvText).findIdx? headerLineJP with
        | none => simp [parseSBICSV, h, hidx]
        | some i => simp [parseSBICSV, h, hidx]
      | US =>
        cases hidx : (csvLines csvText).findIdx? headerLineUS with
        | none => simp [parseSBICSV, h, hidx]
        | some i => simp [parseSBICSV, h, hidx]
  rw [key]
  have split : detectCountry csvText = none ↔
      ((csvLines csvText).findSome? (fun line =>
        if headerJP line then some CountryCode.JP
        else if headerUS line then some CountryCode.US
        else none) = none ∧
      (((csvLines csvText).drop 1).take 9).findSome? (fun line =>
        if rowUS line then some CountryCode.US
        else if rowJP line then some CountryCode.JP
        else none) = none) := by
    cases hf : (csvLines csvText).findSome? (fun line =>
        if headerJP line then some CountryCode.JP
        else if headerUS line then some CountryCode.US
        else none) with
    | none => simp [detectCountry, hf]
    | some c => simp [detectCountry, hf]
  rw [split, List.findSome?_eq_none_iff, List.findSome?_eq_none_iff]
  constructor
  · intro ⟨ha, hb⟩
    constructor
    · intro l hl
      have := ha l hl
      cases hj : headerJP l <;> cases hu : headerUS l <;> simp [hj, hu] at this ⊢
    · intro l hl
      have := hb l hl
      cases hu : rowUS l <;> cases hj : rowJP l <;> simp [hu, hj] at this ⊢
  · intro ⟨ha, hb⟩
    constructor
    · intro l hl
      obtain ⟨h1, h2⟩ := ha l hl
      simp [h1, h2]
    · intro l hl
      obtain ⟨h1, h2⟩ := hb l hl
      simp [h1, h2]

/-- C7 witness: a document with no header marker and no heuristic hit is
rejected as `FormatUndetected`. -/
theorem C7_witness :
    parseSBICSV "randomtext,more" = Except.error ParseError.formatUndetected :=
  (C7_format_undetected_iff "randomtext,more").mpr (by decide)

/-- C10: a Layout B data row with at least 7 cells and a recognized
buy/sell marker whose symbol/name cell has no `[A-Z]{2,5}` run followed
by a slash is still emitted, with the symbol set to the entire combined
cell. -/
theorem C10_no_ticker_keeps_row (line : String)
    (h0 : strTrim line ≠ "")
    (h1 : 7 ≤ (rowCols line).length)
    (h2 : strContains ((rowCols line).getD 3 "") "買" = true ∨
          strContains ((rowCols line).getD 3 "") "売" = true)
    (h3 : findTicker ((rowCols line).getD 2 "").data = none) :
    (parseUSRow line).map (fun t => t.symbol) = some ((rowCols line).getD 2 "") := by
  have hor : (strContains ((rowCols line).getD 3 "") "買" ||
      strContains ((rowCols line).getD 3 "") "売") = true := by
    rcases h2 with h | h
    · rw [h, Bool.true_or]
    · rw [h, Bool.or_true]
  simp only [parseUSRow]
  rw [if_neg h0, if_neg (not_lt.mpr h1), h3, hor]
  simp

/-- C10 witness: the concrete row `C10line` (symbol/name cell
`テスト / NASDAQ`; NASDAQ has six letters, so the ticker regex cannot
match) is emitted with the whole cell as its symbol. -/
theorem C10_witness :
    strTrim C10line ≠ "" ∧ 7 ≤ (rowCols C10line).length ∧
    strContains ((rowCols C10line).getD 3 "") "買" = true ∧
    findTicker ((rowCols C10line).getD 2 "").data = none ∧
    (parseUSRow C10line).map (fun t => t.symbol) = some ((rowCols C10line).getD 2 "") :=
  ⟨by decide, by decide, by decide, by decide,
    C10_no_ticker_keeps_row C10line (by decide) (by decide) (Or.inl (by decide)) (by decide)⟩

/-- C8: the resampler's universal bucketing contract and the concrete
Mon-Fri example.  (1) empty input yields empty output; (2) buckets are
emitted sorted by key ascending; (3) every output bucket aggregates
exactly the input bars whose key is its time — open from the first of
the group, close from the last, high is an attained upper bound, low an
attained lower bound, volume the sum; (4) every input bar lands in the
bucket of its key; (5) the weekly key is the Monday on or before the
bar's date (a Sunday maps 6 days back); (6) the claim's five-bar week
resamples to the stated single weekly bar. -/
theorem C8_resampler_bucketing :
    (∀ getKey : String → String, resampleData [] getKey = []) ∧
    (∀ (getKey : String → String) (candles : List CandleData),
      List.Sorted (fun a b : String => a ≤ b)
        ((resampleData candles getKey).map (fun b => b.time))) ∧
    (∀ (getKey : String → String) (candles : List CandleData) (b : CandleData),
      b ∈ resampleData candles getKey →
      (candles.filter (fun c => getKey c.time = b.time) ≠ [] ∧
       b.«open» = ((candles.filter (fun c => getKey c.time = b.time)).headD dummyCandle).«open» ∧
       b.close = ((candles.filter (fun c => getKey c.time = b.time)).getLastD dummyCandle).close ∧
       (b.high ∈ (candles.filter (fun c => getKey c.time = b.time)).map (fun c => c.high) ∧
        ∀ x ∈ (candles.filter (fun c => getKey c.time = b.time)).map (fun c => c.high),
          x ≤ b.high) ∧
       (b.low ∈ (candles.filter (fun c => getKey c.time = b.time)).map (fun c => c.low) ∧
        ∀ x ∈ (candles.filter (fun c => getKey c.time = b.time)).map (fun c => c.low),
          b.low ≤ x) ∧
       b.volume = ((candles.filter (fun c => getKey c.time = b.time)).map
         (fun c => c.volume)).sum)) ∧
    (∀ (getKey : String → String) (candles : List CandleData) (c : CandleData),
      c ∈ candles → getKey c.time ∈ (resampleData candles getKey).map (fun b => b.time)) ∧
    (∀ n : Int, weekday (mondayOf n) = 1 ∧ n - 6 ≤ mondayOf n ∧ mondayOf n ≤ n) ∧
    resampleToWeekly C8bars = [⟨"2024-01-01", 10, 15, 8, 14, 1000⟩] := by
  refine ⟨fun getKey => rfl, fun g c => resampleData_times_sorted c g, ?_,
    fun g c x h => mem_keys_resampleData c g x h, ?_, ?_⟩
  · intro getKey candles b hb
    obtain ⟨hkey, hbeq⟩ := mem_resampleData candles getKey b hb
    have hfil : groupGet (groupsOf (fun c => getKey c.time) candles) b.time =
        candles.filter (fun c => getKey c.time = b.time) := groupGet_groupsOf _ _ _
    obtain ⟨c0, hc0, hc0k⟩ := (mem_keys_groupsOf _ candles b.time).mp hkey
    have hcmem : c0 ∈ candles.filter (fun c => getKey c.time = b.time) :=
      List.mem_filter.mpr ⟨hc0, by simp [hc0k]⟩
    have hfne : candles.filter (fun c => getKey c.time = b.time) ≠ [] :=
      List.ne_nil_of_mem hcmem
    have hopen := congrArg CandleData.«open» hbeq
    rw [bucketOf_open, hfil] at hopen
    have hclose := congrArg CandleData.close hbeq
    rw [bucketOf_close, hfil] at hclose
    have hhigh := congrArg CandleData.high hbeq
    rw [bucketOf_high, hfil] at hhigh
    have hlow := congrArg CandleData.low hbeq
    rw [bucketOf_low, hfil] at hlow
    have hvol := congrArg CandleData.volume hbeq
    rw [bucketOf_volume, hfil, foldl_add_eq, zero_add] at hvol
    have hmapne : (candles.filter (fun c => getKey c.time = b.time)).map
        (fun c => c.high) ≠ [] := fun hmap => hfne (List.map_eq_nil_iff.mp hmap)
    have hmapne2 : (candles.filter (fun c => getKey c.time = b.time)).map
        (fun c => c.low) ≠ [] := fun hmap => hfne (List.map_eq_nil_iff.mp hmap)
    refine ⟨hfne, hopen, hclose, ⟨?_, ?_⟩, ⟨?_, ?_⟩, hvol⟩
    · rw [hhigh]
      exact maxOf_mem _ hmapne
    · intro x hx
      rw [hhigh]
      exact le_maxOf _ x hx
    · rw [hlow]
      exact minOf_mem _ hmapne2
    · intro x hx
      rw [hlow]
      exact minOf_le _ x hx
  · intro n
    refine ⟨?_, ?_, ?_⟩ <;>
      (simp only [mondayOf, weekday]; split_ifs with h <;> omega)
  · have hgroups : groupsOf (fun c => weekKey c.time) C8bars = [("2024-01-01", C8bars)] := by
      decide
    have hget : groupGet [("2024-01-01", C8bars)] "2024-01-01" = C8bars := by decide
    have hbucket : bucketOf [("2024-01-01", C8bars)] "2024-01-01" =
        ⟨"2024-01-01", 10, 15, 8, 14, 1000⟩ := by
      simp only [bucketOf, hget]
      norm_num [C8bars, maxOf, minOf, max_def, min_def, List.foldl, List.map, List.headD,
        List.getLastD, List.getLast?, CandleData.mk.injEq]
    rw [resampleToWeekly, resampleData_eq _ _ (by simp [C8bars]), hgroups]
    rw [show List.insertionSort (fun a b : String => a ≤ b)
        (([("2024-01-01", C8bars)] : List (String × List CandleData)).map Prod.fst) =
        ["2024-01-01"] from by decide]
    rw [List.map_cons, List.map_nil, hbucket]

/-- C8 witness: the bucketing contract applied to the concrete weekly
bar of the example (its volume is the sum of its group's volumes). -/
theorem C8_witness :
    (⟨"2024-01-01", 10, 15, 8, 14, 1000⟩ : CandleData) ∈ resampleToWeekly C8bars ∧
    (⟨"2024-01-01", 10, 15, 8, 14, 1000⟩ : CandleData).volume =
      ((C8bars.filter (fun c => weekKey c.time =
        (⟨"2024-01-01", 10, 15, 8, 14, 1000⟩ : CandleData).time)).map
        (fun c => c.volume)).sum := by
  have hmem : (⟨"2024-01-01", 10, 15, 8, 14, 1000⟩ : CandleData) ∈ resampleToWeekly C8bars := by
    rw [C8_resampler_bucketing.2.2.2.2.2]
    exact List.mem_singleton.mpr rfl
  exact ⟨hmem,
    (C8_resampler_bucketing.2.2.1 weekKey C8bars _ hmem).2.2.2.2.2⟩

/-- C9: monthly resampling is idempotent on bars with valid
`"YYYY-MM-DD"` dates: each monthly output bar's time is the first of its
month and is its own month key, so re-resampling puts every bar in its
own singleton bucket and rebuilds it unchanged. -/
theorem C9_monthly_resample_idempotent (candles : List CandleData)
    (hv : ∀ c ∈ candles, (parseDate c.time).isSome = true) :
    resampleToMonthly (resampleToMonthly candles) = resampleToMonthly candles := by
  by_cases hout : resampleToMonthly candles = []
  · rw [hout]
    rfl
  · have ha : ∀ b ∈ resampleToMonthly candles, monthKey b.time = b.time := by
      intro b hb
      obtain ⟨hkey, _⟩ := mem_resampleData candles monthKey b hb
      obtain ⟨c, hc, hck⟩ := (mem_keys_groupsOf _ candles b.time).mp hkey
      rw [← hck]
      exact monthKey_stable c.time (hv c hc)
    have hnd : ((resampleToMonthly candles).map (fun b => b.time)).Nodup :=
      resampleData_times_nodup candles monthKey
    have hsorted : List.Sorted (fun a b : String => a ≤ b)
        ((resampleToMonthly candles).map (fun b => b.time)) :=
      resampleData_times_sorted candles monthKey
    have hmapkey : (resampleToMonthly candles).map (fun c => monthKey c.time) =
        (resampleToMonthly candles).map (fun b => b.time) :=
      List.map_congr_left (fun b hb => ha b hb)
    have hg : groupsOf (fun c => monthKey c.time) (resampleToMonthly candles) =
        (resampleToMonthly candles).map (fun b => (b.time, [b])) := by
      rw [groupsOf_singletons _ _ (by rw [hmapkey]; exact hnd)]
      exact List.map_congr_left (fun b hb => by rw [ha b hb])
    have hkeys : ((resampleToMonthly candles).map (fun b => (b.time, [b]))).map Prod.fst =
        (resampleToMonthly candles).map (fun b => b.time) := by
      rw [List.map_map]
      rfl
    show resampleData (resampleToMonthly candles) monthKey = resampleToMonthly candles
    rw [resampleData_eq _ monthKey hout, hg, hkeys,
      List.eq_of_perm_of_sorted (List.perm_insertionSort _ _)
        (List.sorted_insertionSort _ _) hsorted,
      List.map_map]
    have hpt : ∀ b ∈ resampleToMonthly candles,
        (bucketOf ((resampleToMonthly candles).map (fun b => (b.time, [b]))) ∘
          fun b => b.time) b = b := by
      intro b hb
      exact bucketOf_singleton _ b
        (groupGet_map_singleton (fun b : CandleData => b.time)
          (resampleToMonthly candles) hnd b hb)
    rw [List.map_congr_left hpt, List.map_id']

/-- C9 witness: two bars in different months survive a double monthly
resample unchanged. -/
theorem C9_witness :
    (∀ c ∈ [(⟨"2024-01-05", 1, 2, 0, 1, 10⟩ : CandleData), ⟨"2024-02-11", 2, 3, 1, 2, 20⟩],
      (parseDate c.time).isSome = true) ∧
    resampleToMonthly (resampleToMonthly
        [(⟨"2024-01-05", 1, 2, 0, 1, 10⟩ : CandleData), ⟨"2024-02-11", 2, 3, 1, 2, 20⟩]) =
      resampleToMonthly
        [(⟨"2024-01-05", 1, 2, 0, 1, 10⟩ : CandleData), ⟨"2024-02-11", 2, 3, 1, 2, 20⟩] :=
  ⟨by decide, C9_monthly_resample_idempotent _ (by decide)⟩

end TradeLog
